import Mathlib

/-!
# Verification of the sidebar navigation modules

A shallow embedding of the sidebar client-side code (keyboard navigation,
search filter, resizable panel, initialization guards) of the
SpanishLearningResource repository, together with theorems settling the
specification's claims about it.

The DOM-resident entities are modelled as plain data: nav items carry the
attributes the code reads and writes (`hidden`/`active` classes, `tabindex`,
`data-focused`), sections carry their `expanded`/`hidden` classes, and item
content is a tree of text nodes and elements (`mark.search-highlight`
included).  Each source function is translated clause by clause.
-/

namespace Sidebar

/-! ## Definitions -/

/-- A nav item element: `[data-nav-item]`, with its `hidden` and `active`
classes, its `tabindex` attribute and its `data-focused` attribute.
The `id` field stands for DOM node identity. -/
structure NItem where
  id : Nat
  hidden : Bool
  active : Bool
  tabindex : Int
  focused : Bool
deriving DecidableEq, Repr

/-- A `.nav-section` element: one header plus its items, with the
`expanded` class. -/
structure KSection where
  expanded : Bool
  items : List NItem
deriving DecidableEq, Repr

/-- A top-level child of the `.sidebar-nav`: either a static (sectionless)
nav item or a collapsible section. -/
inductive KEntry where
  | static : NItem → KEntry
  | sect : KSection → KEntry
deriving DecidableEq, Repr

/-- The `.sidebar-nav` subtree, in document order. -/
abbrev KNav := List KEntry

/-- The nav items of one entry, each paired with its enclosing section
(`closest('.nav-section')`), in document order. -/
def entryItems : KEntry → List (NItem × Option KSection)
  | .static it => [(it, none)]
  | .sect s => s.items.map (fun it => (it, some s))

/-- All `[data-nav-item]` elements of the nav paired with their enclosing
section, in document order (`querySelectorAll` order). -/
def itemsWithSection (nav : KNav) : List (NItem × Option KSection) :=
  nav.flatMap entryItems

/-- All nav items in document order. -/
def allItems (nav : KNav) : List NItem :=
  (itemsWithSection nav).map Prod.fst

/-- Translation of `getVisibleNavItems`:
`container.querySelectorAll('[data-nav-item]:not(.hidden)')`, then filter
by "no enclosing `.nav-section`, or that section has the `expanded`
class". -/
def getVisibleNavItems (nav : KNav) : List NItem :=
  let allIts := (itemsWithSection nav).filter (fun p => !p.1.hidden)
  (allIts.filter (fun p =>
    match p.2 with
    | none => true
    | some s => s.expanded)).map Prod.fst

/-- Modelled from the spec's words, for the refinement claim about the
navigable set: "an item is included in the navigable set iff it is not
search-hidden and (has no enclosing section or that section is
expanded)". -/
def visibleSpec (p : NItem × Option KSection) : Bool :=
  !p.1.hidden && (match p.2 with
    | none => true
    | some s => s.expanded)

/-- The navigable set as the spec describes it: one pass over the items in
document order, keeping exactly those satisfying `visibleSpec`. -/
def getVisibleNavItemsSpec (nav : KNav) : List NItem :=
  ((itemsWithSection nav).filter visibleSpec).map Prod.fst

/-- Where platform focus currently rests, as far as this module moves it. -/
inductive FocusTarget where
  | item : Nat → FocusTarget
  | header : Nat → FocusTarget
deriving DecidableEq, Repr

/-- The module's state: the nav subtree, the module-level
`currentFocusedItem` reference (by node identity) and the platform focus. -/
structure KState where
  nav : KNav
  cur : Option Nat
  focus : Option FocusTarget
deriving DecidableEq, Repr

/-- Apply an attribute update to every nav item of the tree (section
structure, `expanded` classes untouched). -/
def mapItems (g : NItem → NItem) (nav : KNav) : KNav :=
  nav.map (fun e =>
    match e with
    | .static it => .static (g it)
    | .sect s => .sect { s with items := s.items.map g })

/-- A `setAttribute`-style update of the one element with the given node
identity. -/
def updateItem (nav : KNav) (i : Nat) (f : NItem → NItem) : KNav :=
  mapItems (fun it => if it.id = i then f it else it) nav

def visIds (nav : KNav) : List Nat := (getVisibleNavItems nav).map NItem.id

def allIds (nav : KNav) : List Nat := (allItems nav).map NItem.id

/-- Translation of `nav.querySelector('.nav-item.active')`: the first active item in
document order, hidden or collapsed ones included. -/
def firstActive (nav : KNav) : Option NItem :=
  (allItems nav).find? (fun it => it.active)

/-- Translation of `items.forEach((item) => item.setAttribute('tabindex', '-1'))`:
sequentially set `tabindex` to -1 on each of the listed elements. -/
def setTabMinusAll (items : List NItem) (nav : KNav) : KNav :=
  items.foldl (fun nv it => updateItem nv it.id (fun x => { x with tabindex := -1 })) nav

/-- Translation of `setFocusedItem`: clear `tabindex`/`data-focused` on the
previous `currentFocusedItem` when it differs from the target, then set
`tabindex=0`/`data-focused` on the target, focus it and record it. -/
def setFocusedItem (s : KState) (i : Nat) : KState :=
  let nav1 :=
    match s.cur with
    | some c =>
        if c ≠ i then
          updateItem s.nav c (fun it => { it with tabindex := -1, focused := false })
        else s.nav
    | none => s.nav
  let nav2 := updateItem nav1 i (fun it => { it with tabindex := 0, focused := true })
  { nav := nav2, cur := some i, focus := some (.item i) }

/-- Translation of `initializeTabindex`: read the visible items and the
active item, set `tabindex=-1` on every visible item, then give
`tabindex=0` to the active item if one exists, else to the first visible
item; `currentFocusedItem` follows, and is left untouched when both are
absent. -/
def initializeTabindex (s : KState) : KState :=
  let items := getVisibleNavItems s.nav
  let activeItem := firstActive s.nav
  let nav1 := setTabMinusAll items s.nav
  match activeItem with
  | some a =>
      { s with nav := updateItem nav1 a.id (fun it => { it with tabindex := 0 }),
               cur := some a.id }
  | none =>
      match items.head? with
      | some h =>
          { s with nav := updateItem nav1 h.id (fun it => { it with tabindex := 0 }),
                   cur := some h.id }
      | none => { s with nav := nav1 }

/-- The roving-tabindex property over a list of navigable items: exactly
one element has `tabindex=0`, every other has `tabindex=-1`. -/
def rovingTabB (l : List NItem) : Bool :=
  (l.countP (fun it => it.tabindex == 0) == 1) &&
    l.all (fun it => it.tabindex == 0 || it.tabindex == -1)

/-- The claim's stronger property: exactly one element has `tabindex=0`
together with the `data-focused` marker, every other has `tabindex=-1`
and no marker. -/
def rovingMarkedB (l : List NItem) : Bool :=
  (l.countP (fun it => it.tabindex == 0 && it.focused) == 1) &&
    l.all (fun it => (it.tabindex == 0 && it.focused) || (it.tabindex == -1 && !it.focused))

/-- Image of the item-with-section pairing under an item-wise update. -/
def pairMap (g : NItem → NItem) (p : NItem × Option KSection) : NItem × Option KSection :=
  (g p.1, p.2.map (fun s => { s with items := s.items.map g }))

/-- The cursor invariant the code maintains: `currentFocusedItem` names a
navigable item; that item has `tabindex=0` and every other navigable item
has `tabindex=-1`; the `data-focused` marker sits exactly on the cursor
when `marked`, and nowhere at all otherwise. -/
def CursorInv (marked : Bool) (s : KState) : Prop :=
  ∃ i, s.cur = some i ∧
    (∃ it ∈ getVisibleNavItems s.nav, it.id = i) ∧
    (∀ it ∈ getVisibleNavItems s.nav, it.tabindex = if it.id = i then 0 else -1) ∧
    (∀ it ∈ allItems s.nav, it.focused = (marked && it.id == i))

/-- A one-item nav, fresh from markup (no marker, `tabindex=-1`). -/
def navPlain : KNav :=
  [KEntry.static { id := 0, hidden := false, active := false, tabindex := -1, focused := false }]

def statePlain : KState := { nav := navPlain, cur := none, focus := none }

/-- A three-item nav for concrete checks: one static link and an expanded
section of two items, the first of which is the active page. -/
def navDemo : KNav :=
  [KEntry.static { id := 0, hidden := false, active := false, tabindex := -1, focused := false },
   KEntry.sect
     { expanded := true,
       items :=
         [{ id := 1, hidden := false, active := true, tabindex := -1, focused := false },
          { id := 2, hidden := false, active := false, tabindex := -1, focused := false }] }]

def stateDemo : KState := { nav := navDemo, cur := none, focus := none }

/-- Node identity lookup: the first item of the tree with the given id. -/
def findItem (nav : KNav) (i : Nat) : Option NItem :=
  (allItems nav).find? (fun it => it.id == i)

/-- Translation of `nav.querySelector('.nav-section-header')`: the position of the first
section entry, whose header that query returns. -/
def firstSectionHeaderIdx (nav : KNav) : Option Nat :=
  nav.findIdx? (fun e => match e with | .sect _ => true | .static _ => false)

/-- Translation of the `ArrowDown` case of `handleNavItemKeydown`:
`items.indexOf(target)`; if found and not last, `setFocusedItem` on the
next visible item; otherwise focus the first section header if one
exists. -/
def handleNavItemArrowDown (s : KState) (targetId : Nat) : KState :=
  let items := getVisibleNavItems s.nav
  match items.findIdx? (fun it => it.id == targetId) with
  | some i =>
      if h : i + 1 < items.length then setFocusedItem s (items.get ⟨i + 1, h⟩).id
      else
        match firstSectionHeaderIdx s.nav with
        | some k => { s with focus := some (.header k) }
        | none => s
  | none =>
      match firstSectionHeaderIdx s.nav with
      | some k => { s with focus := some (.header k) }
      | none => s

/-- A nav in mid-session: the cursor sits on item 1 (the second of three
visible items, items 1 and 2 being inside an expanded section). -/
def stateMid : KState :=
  { nav :=
      [KEntry.static { id := 0, hidden := false, active := false, tabindex := -1, focused := false },
       KEntry.sect
         { expanded := true,
           items :=
             [{ id := 1, hidden := false, active := false, tabindex := 0, focused := true },
              { id := 2, hidden := false, active := false, tabindex := -1, focused := false }] }],
    cur := some 1, focus := some (.item 1) }

/-- The parts of a `KeyboardEvent` the handler inspects: the key and the
nature of the event target. -/
structure KeyEvt where
  key : String
  targetIsInput : Bool
  targetIsTextarea : Bool
  targetIsSearchInput : Bool
  targetIsSectionHeader : Bool
  targetIsNavItem : Bool
deriving DecidableEq, Repr

/-- Which sub-handler the dispatcher hands the event to. -/
inductive Route where
  | escapeSearch
  | sectionHeader
  | navItem
  | redirectIntoNav
deriving DecidableEq, Repr

/-- Observable effect of one run of the document-level keydown handler. -/
structure KeyOutcome where
  prevented : Bool
  searchFocused : Bool
  searchBlurred : Bool
  routed : Option Route
deriving DecidableEq, Repr

def noOutcome : KeyOutcome :=
  { prevented := false, searchFocused := false, searchBlurred := false, routed := none }

def navigationKeys : List String :=
  ["ArrowUp", "ArrowDown", "ArrowLeft", "ArrowRight", "Home", "End"]

/-- Translation of the closure returned by `createKeydownHandler`
(branch structure in source order): typing guard, `/`, Escape-on-search,
non-navigation keys, then routing by focus target.  `searchInputPresent`
records whether the captured `searchInput` is non-null (it always is for a
handler installed by `initKeyboardNavigation`, whose nav lookup starts
from the search input). -/
def keydownDispatch (searchInputPresent : Bool) (e : KeyEvt) : KeyOutcome :=
  if (e.targetIsInput || e.targetIsTextarea) && e.key ≠ "Escape" then noOutcome
  else if e.key = "/" then
    { prevented := true, searchFocused := searchInputPresent,
      searchBlurred := false, routed := none }
  else if e.key = "Escape" && e.targetIsSearchInput then
    { prevented := true, searchFocused := false,
      searchBlurred := searchInputPresent, routed := some .escapeSearch }
  else if !(navigationKeys.contains e.key) then noOutcome
  else if e.targetIsSectionHeader then { noOutcome with routed := some .sectionHeader }
  else if e.targetIsNavItem then { noOutcome with routed := some .navItem }
  else { noOutcome with prevented := true, routed := some .redirectIntoNav }

/-- An inline node of a nav item's subtree. -/
inductive DNode where
  | text : List Char → DNode
  | elem : Bool → List DNode → DNode
deriving Repr

/-- The text nodes of a forest in tree (pre)order — what
`createTreeWalker(element, NodeFilter.SHOW_TEXT)` visits. -/
def textNodes : List DNode → List (List Char)
  | [] => []
  | .text s :: t => s :: textNodes t
  | .elem _ cs :: t => textNodes cs ++ textNodes t

/-- Translation of `element.textContent`: concatenation of all text nodes. -/
def textContentL (ns : List DNode) : List Char :=
  (textNodes ns).flatten

/-- JS `toLowerCase`, character by character. -/
def jsLower (s : List Char) : List Char := s.map Char.toLower

/-- Whitespace for JS `trim`. -/
def isSpaceChar (c : Char) : Bool :=
  c = ' ' || c = '\t' || c = '\n' || c = '\r'

/-- JS `trim`. -/
def jsTrim (s : List Char) : List Char :=
  ((s.dropWhile isSpaceChar).reverse.dropWhile isSpaceChar).reverse

def isPrefixOfL : List Char → List Char → Bool
  | [], _ => true
  | _ :: _, [] => false
  | a :: as, b :: bs => a == b && isPrefixOfL as bs

/-- JS `String.prototype.indexOf`: position of the first occurrence. -/
def idxOfAux (needle : List Char) : List Char → Nat → Option Nat
  | [], i => if isPrefixOfL needle [] then some i else none
  | hay@(_ :: t), i => if isPrefixOfL needle hay then some i else idxOfAux needle t (i + 1)

def idxOf (hay needle : List Char) : Option Nat := idxOfAux needle hay 0

/-- JS `String.prototype.includes` (`indexOf(...) !== -1`). -/
def containsL (hay needle : List Char) : Bool := (idxOf hay needle).isSome

/-- The replacement `highlightText` performs on one matching text node:
split at the first occurrence of the query in the lowered text, wrap the
occurrence in a `mark.search-highlight`, and keep nonempty before/after
fragments as text nodes.  A text node without an occurrence stays. -/
def splice (q : List Char) (s : List Char) : List DNode :=
  match idxOf (jsLower s) q with
  | none => [.text s]
  | some i =>
      let beforeText := s.take i
      let matchText := (s.drop i).take q.length
      let afterText := s.drop (i + q.length)
      (if beforeText.isEmpty then [] else [.text beforeText]) ++
        ([.elem true [.text matchText]] ++
          (if afterText.isEmpty then [] else [.text afterText]))

/-- Translation of `highlightText`: every text node of the subtree whose
lowered text contains the query is replaced in place by its splice. -/
def highlightL (q : List Char) : List DNode → List DNode
  | [] => []
  | .text s :: t => splice q s ++ highlightL q t
  | .elem m cs :: t => .elem m (highlightL q cs) :: highlightL q t

/-- Is this node a `mark.search-highlight`? -/
def isMarkTop : DNode → Bool
  | .elem true _ => true
  | _ => false

/-- Translation of `parent.normalize()`: remove empty text nodes and merge adjacent text
nodes, through the whole subtree. -/
def normalizeL : List DNode → List DNode
  | [] => []
  | .text s :: t =>
      if s.isEmpty then normalizeL t
      else
        match normalizeL t with
        | .text s2 :: t2 => .text (s ++ s2) :: t2
        | r => .text s :: r
  | .elem m cs :: t => .elem m (normalizeL cs) :: normalizeL t

/-- The per-node pass of the highlight-clearing loop: each mark is
replaced by a plain text node holding its text content; the subtree of any
parent that had a mark child is normalized (because `parent.normalize()`
is called while clearing that mark). -/
def clearEach : List DNode → List DNode
  | [] => []
  | .text s :: t => .text s :: clearEach t
  | .elem true cs :: t => .text (textContentL cs) :: clearEach t
  | .elem false cs :: t =>
      .elem false (if cs.any isMarkTop then normalizeL (clearEach cs) else clearEach cs) ::
        clearEach t

/-- Clearing all `.search-highlight` marks under one root (the input
handler's first step, document-wide). -/
def clearL (ns : List DNode) : List DNode :=
  if ns.any isMarkTop then normalizeL (clearEach ns) else clearEach ns

/-- Text contents of the `.search-highlight` marks, in document order. -/
def marksTexts : List DNode → List (List Char)
  | [] => []
  | .text _ :: t => marksTexts t
  | .elem true cs :: t => textContentL cs :: marksTexts t
  | .elem false cs :: t => marksTexts cs ++ marksTexts t

/-- No `mark.search-highlight` anywhere in the forest. -/
def noMarksB : List DNode → Bool
  | [] => true
  | .text _ :: t => noMarksB t
  | .elem m cs :: t => !m && noMarksB cs && noMarksB t

def headNotText : List DNode → Bool
  | .text _ :: _ => false
  | _ => true

/-- Parser-normal form: no empty text nodes, no adjacent text siblings. -/
def normalB : List DNode → Bool
  | [] => true
  | .text s :: t => !s.isEmpty && headNotText t && normalB t
  | .elem _ cs :: t => normalB cs && normalB t

/-- The marks the spec predicts for a mark-free subtree: one per text node
whose lowered text contains the query, holding the first occurrence. -/
def specMarks (q : List Char) (ns : List DNode) : List (List Char) :=
  (textNodes ns).filterMap (fun s =>
    match idxOf (jsLower s) q with
    | none => none
    | some i => some ((s.drop i).take q.length))

/-- A `[data-nav-item]` element as the search module sees it: its content
subtree and its `hidden` class. -/
structure SItem where
  content : List DNode
  hidden : Bool
deriving Repr

/-- A top-level child of the scoped container: a sectionless nav item, or
a `.nav-section` (its `hidden` class and its items). -/
inductive SEntry where
  | static : SItem → SEntry
  | sect : Bool → List SItem → SEntry
deriving Repr

/-- One search instance's scope: the captured `navItems`/`sections`
NodeLists (as the entry list) and the instance's empty-state visibility. -/
structure Scope where
  entries : List SEntry
  emptyHidden : Bool
deriving Repr

def clearItem (it : SItem) : SItem := { it with content := clearL it.content }

def clearEntry : SEntry → SEntry
  | .static it => .static (clearItem it)
  | .sect h items => .sect h (items.map clearItem)

def unhideItem (it : SItem) : SItem := { it with hidden := false }

def unhideEntry : SEntry → SEntry
  | .static it => .static (unhideItem it)
  | .sect _ items => .sect false (items.map unhideItem)

/-- The per-item step of the non-empty-query branch: case-insensitive
substring match of the query against the item's full text content; a match
unhides and highlights, a non-match hides. -/
def matchItem (q : List Char) (it : SItem) : SItem :=
  if containsL (jsLower (textContentL it.content)) q then
    { content := highlightL q it.content, hidden := false }
  else { it with hidden := true }

/-- The section pass: hide a section iff it has zero visible items. -/
def matchEntry (q : List Char) : SEntry → SEntry
  | .static it => .static (matchItem q it)
  | .sect _ items =>
      let items2 := items.map (matchItem q)
      .sect (items2.all (fun it => it.hidden)) items2

def entryHasVisible : SEntry → Bool
  | .static it => !it.hidden
  | .sect _ items => items.any (fun it => !it.hidden)

/-- Translation of the `input` listener installed by `initSearch`: lower
and trim the field value, strip all highlight marks document-wide, then
either restore everything (empty query) or filter, highlight, hide empty
sections and toggle the empty state. -/
def onInput (raw : List Char) (sc : Scope) : Scope :=
  let q := jsTrim (jsLower raw)
  let cleared := sc.entries.map clearEntry
  if q.isEmpty then
    { entries := cleared.map unhideEntry, emptyHidden := true }
  else
    let entries2 := cleared.map (matchEntry q)
    let hasVisible := entries2.any entryHasVisible
    { entries := entries2, emptyHidden := hasVisible }

/-- The nav items of one entry. -/
def entryItemsS : SEntry → List SItem
  | .static it => [it]
  | .sect _ items => items

/-- All nav items of the scope in document order. -/
def scopeItems (sc : Scope) : List SItem :=
  sc.entries.flatMap entryItemsS

/-- Witness scope for the search claims: the spec's scenario of an
expanded section with "Intro", "Setup" and "Advanced Setup". -/
def itemIntro : SItem := { content := [.text "Intro".toList], hidden := false }

def itemSetup : SItem := { content := [.text "Setup".toList], hidden := false }

def itemAdv : SItem := { content := [.text "Advanced Setup".toList], hidden := false }

def scopeDemo : Scope :=
  { entries := [.sect false [itemIntro, itemSetup, itemAdv]], emptyHidden := true }

/-- Clearing the live item's content recovers the pristine item's. -/
def ItemRel (a b : SItem) : Prop := clearL b.content = a.content

def EntryRel : SEntry → SEntry → Prop
  | .static it0, .static it => ItemRel it0 it
  | .sect _ its0, .sect _ its => List.Forall₂ ItemRel its0 its
  | _, _ => False

def RestorableE (es0 es : List SEntry) : Prop := List.Forall₂ EntryRel es0 es

/-- What an entry returns to when the search is cleared: content as found
in the pristine document, `hidden` removed everywhere. -/
def restoreItem (it : SItem) : SItem := { content := it.content, hidden := false }

def restoreEntry : SEntry → SEntry
  | .static it => .static (restoreItem it)
  | .sect _ its => .sect false (its.map restoreItem)

/-- An item whose text "Advanced" is split across an element boundary. -/
def itemCross : SItem :=
  { content := [.elem false [.text "Ad".toList], .text "vanced".toList], hidden := false }

def scopeCross : Scope := { entries := [.static itemCross], emptyHidden := true }

/-- JS `parseInt(s, 10)`: skip leading whitespace, optional sign, read the
leading run of decimal digits; `NaN` (here `none`) when that run is
empty. -/
def jsParseInt (s : String) : Option Int :=
  let cs := s.toList.dropWhile isSpaceChar
  let sign : Int :=
    match cs with
    | '-' :: _ => -1
    | _ => 1
  let rest : List Char :=
    match cs with
    | '-' :: t => t
    | '+' :: t => t
    | _ => cs
  let digits := rest.takeWhile Char.isDigit
  if digits.isEmpty then none
  else
    some (sign *
      Int.ofNat (digits.foldl (fun acc c => acc * 10 + (c.toNat - '0'.toNat)) 0))

/-- Comparison `newWidth >= bound` as JS evaluates it: false when the bound is `NaN`. -/
def geOpt (x : Int) (b : Option Int) : Bool :=
  match b with
  | none => false
  | some m => decide (m ≤ x)

/-- Comparison `newWidth <= bound` as JS evaluates it: false when the bound is `NaN`. -/
def leOpt (x : Int) (b : Option Int) : Bool :=
  match b with
  | none => false
  | some m => decide (x ≤ m)

/-- The style values and viewport the resize handlers read. -/
structure ResizeEnv where
  minVar : String
  maxVar : String
  innerWidth : Int
deriving DecidableEq, Repr

/-- The mutable state of a resize drag: the drag flag and origin, the
sidebar's inline width and the grid template's sidebar column. -/
structure ResizeState where
  isResizing : Bool
  startX : Int
  startWidth : Int
  sidebarWidth : Int
  gridColumns : Option Int
deriving DecidableEq, Repr

/-- Translation of `updateGridColumns`: clear the inline grid override
below the desktop breakpoint, set the sidebar column above it. -/
def updateGridColumns (env : ResizeEnv) (st : ResizeState) (w : Int) : ResizeState :=
  if env.innerWidth < 1024 then { st with gridColumns := none }
  else { st with gridColumns := some w }

/-- Translation of the `mousemove` listener of `initResizable`: ignore
unless dragging; compute the candidate width from the horizontal delta;
parse the min/max custom properties; mutate the width (and, on desktop,
the grid columns) only when the candidate is within the bounds. -/
def onMouseMove (env : ResizeEnv) (st : ResizeState) (clientX : Int) : ResizeState :=
  if !st.isResizing then st
  else
    let delta := clientX - st.startX
    let newWidth := st.startWidth + delta
    let minWidth := jsParseInt env.minVar
    let maxWidth := jsParseInt env.maxVar
    if geOpt newWidth minWidth && leOpt newWidth maxWidth then
      let st1 := { st with sidebarWidth := newWidth }
      if env.innerWidth ≥ 1024 then updateGridColumns env st1 newWidth else st1
    else st

structure KeyboardInitOut where
  state : Option KState
  listenerInstalled : Bool
deriving DecidableEq, Repr

/-- Translation of `initKeyboardNavigation`: the nav is resolved through
`searchInput?.closest('.sidebar-content')?.querySelector('.sidebar-nav')`
(absent search input implies absent nav); a missing nav returns before any
mutation, otherwise the roving tabindex is initialized and the single
document-level keydown handler installed. -/
def initKeyboardNavigation (navFound : Option KState) : KeyboardInitOut :=
  match navFound with
  | none => { state := none, listenerInstalled := false }
  | some s => { state := some (initializeTabindex s), listenerInstalled := true }

structure SearchInitOut where
  scope : Option Scope
  emptyStateAppended : Bool
  listenerInstalled : Bool
deriving Repr

def searchInitNoop : SearchInitOut :=
  { scope := none, emptyStateAppended := false, listenerInstalled := false }

/-- Translation of `initSearch`'s guard and setup: missing search input or
container returns before anything happens; otherwise the scoped NodeLists
are captured, the empty state appended (when the nav exists —
`nav?.appendChild`) and the input listener bound. -/
def initSearch (searchInputPresent : Bool) (container : Option Scope)
    (navPresent : Bool) : SearchInitOut :=
  if !searchInputPresent || container.isNone then searchInitNoop
  else
    { scope := container, emptyStateAppended := navPresent, listenerInstalled := true }

/-- The elements and values `initResizable` reads. -/
structure ResizableDom where
  containerPresent : Bool
  handlePresent : Bool
  sidebarPresent : Bool
  gridPresent : Bool
  isInitialized : Bool
  storedWidth : Option String
  innerWidth : Int
  minVar : String
  maxVar : String
deriving DecidableEq, Repr

structure ResizableInitOut where
  transitionsSuppressed : Bool
  gridCleared : Bool
  widthRestored : Option Int
  listenersInstalled : Bool
  initializedFlag : Bool
deriving DecidableEq, Repr

/-- The silent no-op outcome: nothing touched, the flag as it was. -/
def resizableNoop (d : ResizableDom) : ResizableInitOut :=
  { transitionsSuppressed := false, gridCleared := false, widthRestored := none,
    listenersInstalled := false, initializedFlag := d.isInitialized }

/-- Translation of `initResizable`: the already-initialized guard, then
the four-element guard, then transition suppression, conditional grid
clearing, width restoration from storage (desktop only, bounds-checked
with `parseInt` semantics) and listener installation. -/
def initResizable (d : ResizableDom) : ResizableInitOut :=
  if d.isInitialized && d.containerPresent then resizableNoop d
  else if !(d.containerPresent && d.handlePresent && d.sidebarPresent && d.gridPresent) then
    resizableNoop d
  else
    { transitionsSuppressed := true,
      gridCleared := decide (d.innerWidth < 1024),
      widthRestored :=
        match d.storedWidth with
        | some sw =>
            if d.innerWidth ≥ 1024 then
              match jsParseInt sw with
              | some w =>
                  if geOpt w (jsParseInt d.minVar) && leOpt w (jsParseInt d.maxVar) then
                    some w
                  else none
              | none => none
            else none
        | none => none,
      listenersInstalled := true,
      initializedFlag := true }

/-! ## Theorems -/

/-- The code's two-stage query (`:not(.hidden)` selector, then the
enclosing-section filter) fused into the spec's single predicate. -/
theorem gvni_fuse (nav : KNav) :
    getVisibleNavItems nav = getVisibleNavItemsSpec nav := by
  unfold getVisibleNavItems getVisibleNavItemsSpec
  show List.map Prod.fst _ = _
  rw [List.filter_filter]
  congr 1
  apply List.filter_congr
  intro p _
  unfold visibleSpec
  cases p.2 <;> simp [Bool.and_comm]

/-- C2: the code's `getVisibleNavItems` computes exactly the spec's
navigable set: the document-order filter of the items by "not hidden and
(sectionless or in an expanded section)", and membership is equivalent to
that predicate. -/
theorem getVisibleNavItems_eq_spec (nav : KNav) :
    getVisibleNavItems nav = getVisibleNavItemsSpec nav ∧
    (∀ it : NItem, it ∈ getVisibleNavItems nav ↔
      ∃ p ∈ itemsWithSection nav, p.1 = it ∧ visibleSpec p = true) ∧
    (getVisibleNavItems nav).Sublist (allItems nav) := by
  have hfuse := gvni_fuse nav
  refine ⟨hfuse, ?_, ?_⟩
  · intro it
    rw [hfuse]
    unfold getVisibleNavItemsSpec
    simp only [List.mem_map, List.mem_filter]
    constructor
    · rintro ⟨p, ⟨hp, hv⟩, he⟩
      exact ⟨p, hp, he, hv⟩
    · rintro ⟨p, hp, he, hv⟩
      exact ⟨p, ⟨hp, hv⟩, he⟩
  · rw [hfuse]
    unfold getVisibleNavItemsSpec allItems
    exact List.Sublist.map Prod.fst (List.filter_sublist _)

theorem countP_congr_list {α : Type} {p q : α → Bool} {l : List α}
    (h : ∀ a ∈ l, p a = q a) : l.countP p = l.countP q := by
  induction l with
  | nil => rfl
  | cons a t ih =>
    simp only [List.countP_cons, h a (by simp), ih (fun x hx => h x (by simp [hx]))]

theorem mapItems_comp (g h : NItem → NItem) (nav : KNav) :
    mapItems g (mapItems h nav) = mapItems (fun it => g (h it)) nav := by
  unfold mapItems
  rw [List.map_map]
  apply List.map_congr_left
  intro e _
  cases e with
  | static it => rfl
  | sect s => simp [List.map_map]

theorem mapItems_congr {g g' : NItem → NItem} (nav : KNav) (hg : ∀ it, g it = g' it) :
    mapItems g nav = mapItems g' nav := by
  unfold mapItems
  apply List.map_congr_left
  intro e _
  cases e with
  | static it => simp [hg]
  | sect s => simp only [KEntry.sect.injEq]; congr 1; exact List.map_congr_left (fun it _ => hg it)

theorem itemsWithSection_mapItems (g : NItem → NItem) (nav : KNav) :
    itemsWithSection (mapItems g nav) = (itemsWithSection nav).map (pairMap g) := by
  unfold itemsWithSection mapItems
  induction nav with
  | nil => rfl
  | cons e t ih =>
    simp only [List.map_cons, List.flatMap_cons, List.map_append, ih]
    congr 1
    cases e with
    | static it => rfl
    | sect s => simp [entryItems, pairMap, List.map_map]

theorem allItems_mapItems (g : NItem → NItem) (nav : KNav) :
    allItems (mapItems g nav) = (allItems nav).map g := by
  unfold allItems
  rw [itemsWithSection_mapItems, List.map_map, List.map_map]
  rfl

theorem gvni_mapItems (g : NItem → NItem) (nav : KNav)
    (hh : ∀ it, (g it).hidden = it.hidden) :
    getVisibleNavItems (mapItems g nav) = (getVisibleNavItems nav).map g := by
  rw [gvni_fuse, gvni_fuse]
  unfold getVisibleNavItemsSpec
  rw [itemsWithSection_mapItems, List.filter_map, List.map_map]
  have hspec : ∀ p : NItem × Option KSection, visibleSpec (pairMap g p) = visibleSpec p := by
    intro p
    unfold visibleSpec pairMap
    cases p.2 <;> simp [hh]
  have : (visibleSpec ∘ pairMap g) = visibleSpec := funext hspec
  rw [this, List.map_map]
  apply List.map_congr_left
  intro p _
  rfl

theorem visIds_mapItems (g : NItem → NItem) (nav : KNav)
    (hh : ∀ it, (g it).hidden = it.hidden) (hid : ∀ it, (g it).id = it.id) :
    visIds (mapItems g nav) = visIds nav := by
  unfold visIds
  rw [gvni_mapItems g nav hh, List.map_map]
  apply List.map_congr_left
  intro it _
  exact hid it

theorem allIds_mapItems (g : NItem → NItem) (nav : KNav)
    (hid : ∀ it, (g it).id = it.id) :
    allIds (mapItems g nav) = allIds nav := by
  unfold allIds
  rw [allItems_mapItems, List.map_map]
  apply List.map_congr_left
  intro it _
  exact hid it

theorem mapItems_id (nav : KNav) : mapItems (fun it => it) nav = nav := by
  unfold mapItems
  induction nav with
  | nil => rfl
  | cons e t ih =>
    simp only [List.map_cons, ih]
    congr 1
    cases e <;> simp

theorem visIds_sublist (nav : KNav) : (visIds nav).Sublist (allIds nav) := by
  unfold visIds allIds allItems
  rw [gvni_fuse]
  unfold getVisibleNavItemsSpec
  rw [List.map_map, List.map_map]
  exact List.Sublist.map _ (List.filter_sublist _)

theorem setTabMinusAll_eq (items : List NItem) (nav : KNav) :
    setTabMinusAll items nav =
      mapItems (fun it =>
        if (items.map NItem.id).contains it.id then { it with tabindex := -1 } else it) nav := by
  induction items generalizing nav with
  | nil =>
    simp only [setTabMinusAll, List.foldl_nil, List.map_nil]
    rw [show (fun (it : NItem) => if List.contains [] it.id then { it with tabindex := -1 } else it)
          = (fun it => it) by funext it; simp]
    exact (mapItems_id nav).symm
  | cons a rest ih =>
    show setTabMinusAll rest (updateItem nav a.id _) = _
    rw [ih]
    unfold updateItem
    rw [mapItems_comp]
    apply mapItems_congr
    intro it
    by_cases hmem : rest.map NItem.id |>.contains it.id <;>
      by_cases heq : it.id = a.id <;>
        simp [hmem, heq, List.contains_cons]

theorem setFocusedItem_cursorInv (s : KState) (b : Bool) (i : Nat)
    (h : CursorInv b s) (hi : i ∈ visIds s.nav) :
    CursorInv true (setFocusedItem s i) := by
  obtain ⟨c, hcur, _, htab, hfoc⟩ := h
  obtain ⟨it0, hit0, hid0⟩ : ∃ it ∈ getVisibleNavItems s.nav, it.id = i := by
    unfold visIds at hi
    simpa using hi
  unfold setFocusedItem updateItem
  rw [hcur]
  by_cases hci : c = i
  · subst hci
    simp only [ne_eq, not_true_eq_false, if_neg, ite_false, reduceIte]
    set g : NItem → NItem := fun it => if it.id = c then { it with tabindex := 0, focused := true } else it with hg
    refine ⟨c, rfl, ?_, ?_, ?_⟩
    · refine ⟨g it0, ?_, ?_⟩
      · rw [gvni_mapItems]
        · exact List.mem_map_of_mem g hit0
        · intro it; simp only [hg]; split <;> rfl
      · simp only [hg, hid0]; simp
    · intro it' hit'
      rw [gvni_mapItems] at hit'
      · obtain ⟨it1, hit1, rfl⟩ := List.mem_map.mp hit'
        by_cases h1 : it1.id = c
        · simp [hg, h1]
        · simp only [hg, h1, if_neg, ite_false, reduceIte]
          rw [htab it1 hit1]
          simp [h1]
      · intro it; simp only [hg]; split <;> rfl
    · intro it' hit'
      rw [allItems_mapItems] at hit'
      obtain ⟨it1, hit1, rfl⟩ := List.mem_map.mp hit'
      by_cases h1 : it1.id = c
      · simp [hg, h1]
      · simp only [hg, h1, ite_false, reduceIte]
        rw [hfoc it1 hit1]
        simp [h1]
  · simp only [ne_eq, hci, not_false_eq_true, if_pos, reduceIte]
    set g1 : NItem → NItem := fun it => if it.id = c then { it with tabindex := -1, focused := false } else it with hg1
    set g2 : NItem → NItem := fun it => if it.id = i then { it with tabindex := 0, focused := true } else it with hg2
    rw [mapItems_comp]
    set G : NItem → NItem := fun it => g2 (g1 it) with hG
    have hGid : ∀ it, (G it).id = it.id := by
      intro it; simp only [hG, hg1, hg2]; split <;> split <;> rfl
    have hGhid : ∀ it, (G it).hidden = it.hidden := by
      intro it; simp only [hG, hg1, hg2]; split <;> split <;> rfl
    refine ⟨i, rfl, ?_, ?_, ?_⟩
    · refine ⟨G it0, ?_, ?_⟩
      · rw [gvni_mapItems _ _ hGhid]
        exact List.mem_map_of_mem G hit0
      · rw [hGid, hid0]
    · intro it' hit'
      rw [gvni_mapItems _ _ hGhid] at hit'
      obtain ⟨it1, hit1, rfl⟩ := List.mem_map.mp hit'
      rw [hGid]
      have hic : ¬ (i = c) := fun hh => hci hh.symm
      by_cases h1 : it1.id = i
      · simp [hG, hg1, hg2, h1, hic]
      · by_cases h2 : it1.id = c
        · simp [hG, hg1, hg2, h1, h2, hci]
        · simp only [hG, hg1, hg2, h1, h2, ite_false, reduceIte]
          rw [htab it1 hit1]
          simp [h1, h2]
    · intro it' hit'
      rw [allItems_mapItems] at hit'
      obtain ⟨it1, hit1, rfl⟩ := List.mem_map.mp hit'
      rw [hGid]
      have hic : ¬ (i = c) := fun hh => hci hh.symm
      by_cases h1 : it1.id = i
      · simp [hG, hg1, hg2, h1, hic]
      · by_cases h2 : it1.id = c
        · simp [hG, hg1, hg2, h1, h2, hci]
        · simp only [hG, hg1, hg2, h1, h2, ite_false, reduceIte]
          rw [hfoc it1 hit1]
          have e1 : (it1.id == c) = false := by simp [h2]
          have e2 : (it1.id == i) = false := by simp [h1]
          rw [e1, e2]
          simp

theorem setFocusedItem_visIds (s : KState) (i : Nat) :
    visIds (setFocusedItem s i).nav = visIds s.nav := by
  unfold setFocusedItem updateItem
  cases hc : s.cur with
  | none =>
    simp only
    rw [visIds_mapItems] <;> intro it <;> split <;> rfl
  | some c =>
    by_cases hci : c = i
    · simp only [hc, hci, ne_eq, not_true_eq_false, reduceIte, ite_false]
      rw [visIds_mapItems] <;> intro it <;> split <;> rfl
    · simp only [hc, ne_eq, hci, not_false_eq_true, reduceIte, ite_true]
      rw [mapItems_comp, visIds_mapItems] <;> intro it <;> split <;> split <;> rfl

theorem setFocusedItem_allIds (s : KState) (i : Nat) :
    allIds (setFocusedItem s i).nav = allIds s.nav := by
  unfold setFocusedItem updateItem
  cases hc : s.cur with
  | none =>
    simp only
    rw [allIds_mapItems] ; intro it ; split <;> rfl
  | some c =>
    by_cases hci : c = i
    · simp only [hc, hci, ne_eq, not_true_eq_false, reduceIte, ite_false]
      rw [allIds_mapItems] ; intro it ; split <;> rfl
    · simp only [hc, ne_eq, hci, not_false_eq_true, reduceIte, ite_true]
      rw [mapItems_comp, allIds_mapItems] ; intro it ; split <;> split <;> rfl

theorem foldl_setFocusedItem_inv (moves : List Nat) (s : KState) (b : Bool)
    (h : CursorInv b s) (hm : ∀ m ∈ moves, m ∈ visIds s.nav) :
    CursorInv (b || !moves.isEmpty) (moves.foldl setFocusedItem s) ∧
      visIds (moves.foldl setFocusedItem s).nav = visIds s.nav ∧
      allIds (moves.foldl setFocusedItem s).nav = allIds s.nav := by
  induction moves generalizing s b with
  | nil => simpa using h
  | cons m t ih =>
    have hmvis : m ∈ visIds s.nav := hm m (by simp)
    have h1 : CursorInv true (setFocusedItem s m) :=
      setFocusedItem_cursorInv s b m h hmvis
    have hv1 : visIds (setFocusedItem s m).nav = visIds s.nav := setFocusedItem_visIds s m
    have ha1 : allIds (setFocusedItem s m).nav = allIds s.nav := setFocusedItem_allIds s m
    have hm1 : ∀ x ∈ t, x ∈ visIds (setFocusedItem s m).nav := by
      intro x hx; rw [hv1]; exact hm x (by simp [hx])
    obtain ⟨hinv, hvis, hall⟩ := ih (setFocusedItem s m) true h1 hm1
    refine ⟨?_, hvis.trans hv1, hall.trans ha1⟩
    simpa using hinv

theorem initializeTabindex_cursorInv (s : KState)
    (hfoc : ∀ it ∈ allItems s.nav, it.focused = false)
    (hact : match firstActive s.nav with
            | some a => a.id ∈ visIds s.nav
            | none => getVisibleNavItems s.nav ≠ []) :
    CursorInv false (initializeTabindex s) ∧
      visIds (initializeTabindex s).nav = visIds s.nav ∧
      allIds (initializeTabindex s).nav = allIds s.nav := by
  unfold initializeTabindex
  have hkey : ∀ tgt : Nat, tgt ∈ visIds s.nav →
      CursorInv false
        { s with nav := updateItem (setTabMinusAll (getVisibleNavItems s.nav) s.nav) tgt
                          (fun it => { it with tabindex := 0 }),
                 cur := some tgt } ∧
      visIds (updateItem (setTabMinusAll (getVisibleNavItems s.nav) s.nav) tgt
                (fun it => { it with tabindex := 0 })) = visIds s.nav ∧
      allIds (updateItem (setTabMinusAll (getVisibleNavItems s.nav) s.nav) tgt
                (fun it => { it with tabindex := 0 })) = allIds s.nav := by
    intro tgt htgt
    obtain ⟨it0, hit0, hid0⟩ : ∃ it ∈ getVisibleNavItems s.nav, it.id = tgt := by
      unfold visIds at htgt
      simpa using htgt
    rw [setTabMinusAll_eq]
    unfold updateItem
    rw [mapItems_comp]
    set gm : NItem → NItem := fun it =>
      if ((getVisibleNavItems s.nav).map NItem.id).contains it.id
      then { it with tabindex := -1 } else it with hgm
    set G : NItem → NItem := fun it =>
      if (gm it).id = tgt then { gm it with tabindex := 0 } else gm it with hG
    have hgmid : ∀ it, (gm it).id = it.id := by
      intro it; simp only [hgm]; split <;> rfl
    have hgmhid : ∀ it, (gm it).hidden = it.hidden := by
      intro it; simp only [hgm]; split <;> rfl
    have hgmfoc : ∀ it, (gm it).focused = it.focused := by
      intro it; simp only [hgm]; split <;> rfl
    have hGid : ∀ it, (G it).id = it.id := by
      intro it; simp only [hG]; split <;> exact hgmid it
    have hGhid : ∀ it, (G it).hidden = it.hidden := by
      intro it; simp only [hG]; split <;> exact hgmhid it
    have hGfoc : ∀ it, (G it).focused = it.focused := by
      intro it; simp only [hG]; split <;> exact hgmfoc it
    refine ⟨⟨tgt, rfl, ?_, ?_, ?_⟩, ?_, ?_⟩
    · refine ⟨G it0, ?_, ?_⟩
      · rw [gvni_mapItems _ _ hGhid]
        exact List.mem_map_of_mem G hit0
      · rw [hGid, hid0]
    · intro it' hit'
      rw [gvni_mapItems _ _ hGhid] at hit'
      obtain ⟨it1, hit1, rfl⟩ := List.mem_map.mp hit'
      rw [hGid]
      have hmem : ((getVisibleNavItems s.nav).map NItem.id).contains it1.id = true := by
        simpa using List.mem_map_of_mem NItem.id hit1
      by_cases h1 : it1.id = tgt
      · have hgt : (gm it1).id = tgt := (hgmid it1).trans h1
        simp only [hG]
        rw [if_pos hgt, if_pos h1]
      · have hgt : ¬ (gm it1).id = tgt := by rw [hgmid it1]; exact h1
        simp only [hG]
        rw [if_neg hgt, if_neg h1]
        simp only [hgm]
        rw [if_pos hmem]
    · intro it' hit'
      rw [allItems_mapItems] at hit'
      obtain ⟨it1, hit1, rfl⟩ := List.mem_map.mp hit'
      rw [hGfoc, hfoc it1 hit1]
      simp
    · exact visIds_mapItems G s.nav hGhid hGid
    · exact allIds_mapItems G s.nav hGid
  cases hfa : firstActive s.nav with
  | some a =>
    rw [hfa] at hact
    simp only [hfa]
    exact hkey a.id hact
  | none =>
    rw [hfa] at hact
    cases hh : (getVisibleNavItems s.nav).head? with
    | none =>
      exact absurd (List.head?_eq_none_iff.mp hh) hact
    | some h =>
      simp only [hfa, hh]
      apply hkey h.id
      unfold visIds
      have : h ∈ getVisibleNavItems s.nav := List.mem_of_mem_head? hh
      exact List.mem_map_of_mem NItem.id this

theorem cursorInv_rovingTab (s : KState) (b : Bool)
    (hnd : (allIds s.nav).Nodup) (h : CursorInv b s) :
    rovingTabB (getVisibleNavItems s.nav) = true := by
  obtain ⟨i, _, ⟨it0, hit0, hid0⟩, htab, _⟩ := h
  have hndv : (visIds s.nav).Nodup := (visIds_sublist s.nav).nodup hnd
  unfold rovingTabB
  rw [Bool.and_eq_true]
  constructor
  · have hc : (getVisibleNavItems s.nav).countP (fun it => it.tabindex == 0)
        = (getVisibleNavItems s.nav).countP (fun it => it.id == i) := by
      apply countP_congr_list
      intro it hit
      rw [htab it hit]
      by_cases hii : it.id = i <;> simp [hii]
    rw [hc]
    have hm : ((getVisibleNavItems s.nav).map NItem.id).countP (fun x => x == i)
        = (getVisibleNavItems s.nav).countP (fun it => it.id == i) :=
      List.countP_map _ _ _
    rw [← hm]
    unfold visIds at hndv
    have : ((getVisibleNavItems s.nav).map NItem.id).countP (fun x => x == i)
        = ((getVisibleNavItems s.nav).map NItem.id).count i := rfl
    rw [this, List.count_eq_one_of_mem hndv (hid0 ▸ List.mem_map_of_mem NItem.id hit0)]
    rfl
  · rw [List.all_eq_true]
    intro it hit
    rw [htab it hit]
    by_cases hii : it.id = i <;> simp [hii]

theorem cursorInv_rovingMarked (s : KState)
    (hnd : (allIds s.nav).Nodup) (h : CursorInv true s) :
    rovingMarkedB (getVisibleNavItems s.nav) = true := by
  obtain ⟨i, _, ⟨it0, hit0, hid0⟩, htab, hfoc⟩ := h
  have hndv : (visIds s.nav).Nodup := (visIds_sublist s.nav).nodup hnd
  have hsub : ∀ it ∈ getVisibleNavItems s.nav, it ∈ allItems s.nav := by
    intro it hit
    have : (getVisibleNavItems s.nav).Sublist (allItems s.nav) := by
      rw [gvni_fuse]
      unfold getVisibleNavItemsSpec allItems
      exact List.Sublist.map Prod.fst (List.filter_sublist _)
    exact this.mem hit
  unfold rovingMarkedB
  rw [Bool.and_eq_true]
  constructor
  · have hc : (getVisibleNavItems s.nav).countP (fun it => it.tabindex == 0 && it.focused)
        = (getVisibleNavItems s.nav).countP (fun it => it.id == i) := by
      apply countP_congr_list
      intro it hit
      rw [htab it hit, hfoc it (hsub it hit)]
      by_cases hii : it.id = i <;> simp [hii]
    rw [hc]
    have hm : ((getVisibleNavItems s.nav).map NItem.id).countP (fun x => x == i)
        = (getVisibleNavItems s.nav).countP (fun it => it.id == i) :=
      List.countP_map _ _ _
    rw [← hm]
    unfold visIds at hndv
    have : ((getVisibleNavItems s.nav).map NItem.id).countP (fun x => x == i)
        = ((getVisibleNavItems s.nav).map NItem.id).count i := rfl
    rw [this, List.count_eq_one_of_mem hndv (hid0 ▸ List.mem_map_of_mem NItem.id hit0)]
    rfl
  · rw [List.all_eq_true]
    intro it hit
    rw [htab it hit, hfoc it (hsub it hit)]
    by_cases hii : it.id = i <;> simp [hii]

/-- C1 counterexample: on a nav holding a single visible item,
`initializeTabindex` gives that item `tabindex=0` but never sets the
`data-focused` marker, so immediately after initialization (zero
subsequent `setFocusedItem` moves) no element of the non-empty navigable
set holds `tabindex=0` together with the focused marker — the claimed
invariant is false as stated. -/
theorem roving_invariant_counterexample :
    rovingMarkedB (getVisibleNavItems (initializeTabindex statePlain).nav) = false ∧
      getVisibleNavItems (initializeTabindex statePlain).nav ≠ [] ∧
      rovingTabB (getVisibleNavItems (initializeTabindex statePlain).nav) = true := by
  decide

/-- C1 (amended): assume the nav's node identities are distinct, no element
carries the `data-focused` marker beforehand, and the active item — or,
failing one, at least one item — is in the navigable set.  Then after
`initializeTabindex` exactly one NavItem of the navigable set has
`tabindex=0` and every other has `tabindex=-1` (the focused marker is not
set by initialization, and SectionHeader tabindex is not managed at all);
and after every nonempty sequence of cursor moves via `setFocusedItem`
into the navigable set, exactly one NavItem of the navigable set has
`tabindex=0` together with the focused marker while every other has
`tabindex=-1` and no marker. -/
theorem roving_tabindex_amended (s : KState)
    (hnd : (allIds s.nav).Nodup)
    (hfoc : ∀ it ∈ allItems s.nav, it.focused = false)
    (hact : match firstActive s.nav with
            | some a => a.id ∈ visIds s.nav
            | none => getVisibleNavItems s.nav ≠ [])
    (moves : List Nat) (hm : ∀ m ∈ moves, m ∈ visIds s.nav) :
    rovingTabB (getVisibleNavItems (initializeTabindex s).nav) = true ∧
      (∀ it ∈ allItems (initializeTabindex s).nav, it.focused = false) ∧
      rovingTabB
        (getVisibleNavItems (moves.foldl setFocusedItem (initializeTabindex s)).nav) = true ∧
      (moves ≠ [] →
        rovingMarkedB
          (getVisibleNavItems (moves.foldl setFocusedItem (initializeTabindex s)).nav) = true) := by
  obtain ⟨inv0, hvis0, hall0⟩ := initializeTabindex_cursorInv s hfoc hact
  have hnd0 : (allIds (initializeTabindex s).nav).Nodup := by rw [hall0]; exact hnd
  have hm0 : ∀ m ∈ moves, m ∈ visIds (initializeTabindex s).nav := by
    intro m hmm; rw [hvis0]; exact hm m hmm
  obtain ⟨invF, hvisF, hallF⟩ :=
    foldl_setFocusedItem_inv moves (initializeTabindex s) false inv0 hm0
  have hndF : (allIds (moves.foldl setFocusedItem (initializeTabindex s)).nav).Nodup := by
    rw [hallF, hall0]; exact hnd
  refine ⟨cursorInv_rovingTab _ false hnd0 inv0, ?_, ?_, ?_⟩
  · obtain ⟨i, _, _, _, hf⟩ := inv0
    intro it hit
    rw [hf it hit]
    simp
  · exact cursorInv_rovingTab _ _ hndF invF
  · intro hne
    have hb : (false || !moves.isEmpty) = true := by
      simp [List.isEmpty_iff, hne]
    rw [hb] at invF
    exact cursorInv_rovingMarked _ hndF invF

theorem findItem_mapItems (g : NItem → NItem) (nav : KNav)
    (hid : ∀ it, (g it).id = it.id) (i : Nat) :
    findItem (mapItems g nav) i = (findItem nav i).map g := by
  unfold findItem
  rw [allItems_mapItems, List.find?_map]
  have hp : ((fun it : NItem => it.id == i) ∘ g) = (fun it : NItem => it.id == i) := by
    funext it
    simp [hid]
  rw [hp]

theorem setFocusedItem_attrs (s : KState) (c m : Nat)
    (hcur : s.cur = some c) (hcm : c ≠ m)
    (itm : NItem) (hfm : findItem s.nav m = some itm)
    (itc : NItem) (hfc : findItem s.nav c = some itc) :
    (setFocusedItem s m).cur = some m ∧
      (setFocusedItem s m).focus = some (.item m) ∧
      findItem (setFocusedItem s m).nav m =
        some { itm with tabindex := 0, focused := true } ∧
      findItem (setFocusedItem s m).nav c =
        some { itc with tabindex := -1, focused := false } := by
  have hidm : itm.id = m := by
    have := List.find?_some hfm
    simpa using this
  have hidc : itc.id = c := by
    have := List.find?_some hfc
    simpa using this
  have hnav : (setFocusedItem s m).nav =
      mapItems (fun it =>
        (fun x => if x.id = m then { x with tabindex := 0, focused := true } else x)
          ((fun x => if x.id = c then { x with tabindex := -1, focused := false } else x) it))
        s.nav := by
    simp only [setFocusedItem, hcur]
    rw [if_pos hcm]
    unfold updateItem
    rw [mapItems_comp]
  have hGid : ∀ it : NItem,
      ((fun x => if x.id = m then { x with tabindex := 0, focused := true } else x)
        ((fun x => if x.id = c then { x with tabindex := -1, focused := false } else x) it)).id
        = it.id := by
    intro it
    simp only
    split <;> split <;> simp_all
  refine ⟨rfl, rfl, ?_, ?_⟩
  · rw [hnav, findItem_mapItems _ _ hGid, hfm]
    simp only [Option.map_some]
    have h1 : ¬ (itm.id = c) := by rw [hidm]; exact fun hh => hcm hh.symm
    have hmc : ¬ (m = c) := fun hh => hcm hh.symm
    simp [h1, hidm, hmc]
  · rw [hnav, findItem_mapItems _ _ hGid, hfc]
    simp only [Option.map_some]
    simp [hidc, hcm]

/-- C6: with the cursor on a visible NavItem, ArrowDown moves the cursor
to the next visible item of the navigable set — the old item's
`tabindex`/marker are cleared and the new item receives `tabindex=0`, the
marker and the focus — and when the focused item is the last visible item
of the navigable set, the platform focus moves to the first SectionHeader
instead, the item attributes staying as they were. -/
theorem arrowDown_moves_cursor (s : KState) (targetId : Nat)
    (hnd : (allIds s.nav).Nodup)
    (hcur : s.cur = some targetId)
    (i : Nat)
    (hi : (getVisibleNavItems s.nav).findIdx? (fun it => it.id == targetId) = some i) :
    (∀ h : i + 1 < (getVisibleNavItems s.nav).length,
      (handleNavItemArrowDown s targetId).cur =
          some ((getVisibleNavItems s.nav).get ⟨i + 1, h⟩).id ∧
        (handleNavItemArrowDown s targetId).focus =
          some (.item ((getVisibleNavItems s.nav).get ⟨i + 1, h⟩).id) ∧
        (∃ itNew,
          findItem (handleNavItemArrowDown s targetId).nav
              ((getVisibleNavItems s.nav).get ⟨i + 1, h⟩).id = some itNew ∧
            itNew.tabindex = 0 ∧ itNew.focused = true) ∧
        (∃ itOld,
          findItem (handleNavItemArrowDown s targetId).nav targetId = some itOld ∧
            itOld.tabindex = -1 ∧ itOld.focused = false)) ∧
      (¬ i + 1 < (getVisibleNavItems s.nav).length →
        ∀ k, firstSectionHeaderIdx s.nav = some k →
          handleNavItemArrowDown s targetId = { s with focus := some (.header k) }) := by
  have hsub : (getVisibleNavItems s.nav).Sublist (allItems s.nav) := by
    rw [gvni_fuse]
    unfold getVisibleNavItemsSpec allItems
    exact List.Sublist.map Prod.fst (List.filter_sublist _)
  constructor
  · intro h
    have hilt : i < (getVisibleNavItems s.nav).length := by omega
    have hred : handleNavItemArrowDown s targetId =
        setFocusedItem s ((getVisibleNavItems s.nav).get ⟨i + 1, h⟩).id := by
      unfold handleNavItemArrowDown
      simp only [hi]
      simp only [dif_pos h]
    have hfound : (getVisibleNavItems s.nav).findIdx (fun it => it.id == targetId) = i :=
      (List.findIdx?_eq_some_iff_findIdx_eq.mp hi).2
    have hw : (getVisibleNavItems s.nav).findIdx (fun it => it.id == targetId)
        < (getVisibleNavItems s.nav).length := by rw [hfound]; exact hilt
    have hpred := @List.findIdx_getElem _ (fun it => it.id == targetId)
      (getVisibleNavItems s.nav) hw
    have hidTi : ((getVisibleNavItems s.nav)[i]).id = targetId := by
      simp only [hfound] at hpred
      simpa using hpred
    have hvisnd : ((getVisibleNavItems s.nav).map NItem.id).Nodup := by
      have := (visIds_sublist s.nav).nodup hnd
      unfold visIds at this
      exact this
    have hTne : targetId ≠ ((getVisibleNavItems s.nav).get ⟨i + 1, h⟩).id := by
      intro hcontra
      have hb1 : i < ((getVisibleNavItems s.nav).map NItem.id).length := by
        simpa using hilt
      have hb2 : i + 1 < ((getVisibleNavItems s.nav).map NItem.id).length := by
        simpa using h
      have hmapeq : ((getVisibleNavItems s.nav).map NItem.id)[i]
          = ((getVisibleNavItems s.nav).map NItem.id)[i + 1] := by
        simp only [List.getElem_map]
        rw [hidTi, hcontra]
        rfl
      have hne : i ≠ i + 1 := by omega
      exact hne (List.Nodup.getElem_inj_iff hvisnd |>.mp hmapeq)
    have hmemN : (getVisibleNavItems s.nav).get ⟨i + 1, h⟩ ∈ allItems s.nav :=
      hsub.mem (List.get_mem _ _ h)
    have hmemT : (getVisibleNavItems s.nav)[i] ∈ allItems s.nav :=
      hsub.mem (List.getElem_mem hilt)
    have hfm : ∃ itm, findItem s.nav ((getVisibleNavItems s.nav).get ⟨i + 1, h⟩).id = some itm := by
      apply Option.isSome_iff_exists.mp
      unfold findItem
      rw [List.find?_isSome]
      exact ⟨_, hmemN, by simp⟩
    have hfc : ∃ itc, findItem s.nav targetId = some itc := by
      apply Option.isSome_iff_exists.mp
      unfold findItem
      rw [List.find?_isSome]
      exact ⟨_, hmemT, by simp [hidTi]⟩
    obtain ⟨itm, hfm⟩ := hfm
    obtain ⟨itc, hfc⟩ := hfc
    obtain ⟨ha, hb, hc, hd⟩ :=
      setFocusedItem_attrs s targetId ((getVisibleNavItems s.nav).get ⟨i + 1, h⟩).id
        hcur hTne itm hfm itc hfc
    rw [hred]
    exact ⟨ha, hb, ⟨_, hc, rfl, rfl⟩, ⟨_, hd, rfl, rfl⟩⟩
  · intro hlast k hk
    unfold handleNavItemArrowDown
    simp only [hi]
    simp only [dif_neg hlast]
    rw [hk]

/-- Witness for the amended C1 at the concrete demo nav with the move
sequence item 2, then item 0. -/
theorem roving_tabindex_amended_witness :
    rovingTabB (getVisibleNavItems (initializeTabindex stateDemo).nav) = true ∧
      (∀ it ∈ allItems (initializeTabindex stateDemo).nav, it.focused = false) ∧
      rovingTabB
        (getVisibleNavItems
          (([2, 0] : List Nat).foldl setFocusedItem (initializeTabindex stateDemo)).nav) = true ∧
      rovingMarkedB
        (getVisibleNavItems
          (([2, 0] : List Nat).foldl setFocusedItem (initializeTabindex stateDemo)).nav) = true := by
  have h := roving_tabindex_amended stateDemo (by decide) (by decide)
    (show (1 : Nat) ∈ visIds stateDemo.nav by decide) [2, 0] (by decide)
  exact ⟨h.1, h.2.1, h.2.2.1, h.2.2.2 (by decide)⟩

/-- Witness for C6 at the concrete mid-session nav: ArrowDown on item 1
moves the cursor to item 2, item 2 gets `tabindex=0` and the marker, item
1 drops to `tabindex=-1` without the marker. -/
theorem arrowDown_moves_cursor_witness :
    (handleNavItemArrowDown stateMid 1).cur = some 2 ∧
      (handleNavItemArrowDown stateMid 1).focus = some (.item 2) ∧
      (∃ itNew,
        findItem (handleNavItemArrowDown stateMid 1).nav 2 = some itNew ∧
          itNew.tabindex = 0 ∧ itNew.focused = true) ∧
      (∃ itOld,
        findItem (handleNavItemArrowDown stateMid 1).nav 1 = some itOld ∧
          itOld.tabindex = -1 ∧ itOld.focused = false) := by
  have h := (arrowDown_moves_cursor stateMid 1 (by decide) (by decide) 1 (by decide)).1
    (by decide)
  exact h

/-- C7: for a keydown with key `/` through an installed handler (search
input present): if the target is not an input or textarea, the search
input is focused and the default action suppressed; if the target is an
input or textarea, the handler does nothing at all, so the `/` is typed
normally. -/
theorem slash_focuses_search (e : KeyEvt) (hk : e.key = "/") :
    ((e.targetIsInput || e.targetIsTextarea) = false →
      keydownDispatch true e =
        { prevented := true, searchFocused := true, searchBlurred := false, routed := none }) ∧
      ((e.targetIsInput || e.targetIsTextarea) = true →
        ∀ sp : Bool, keydownDispatch sp e = noOutcome) := by
  constructor
  · intro ht
    unfold keydownDispatch
    rw [ht]
    simp [hk]
  · intro ht sp
    unfold keydownDispatch
    rw [ht]
    have : e.key ≠ "Escape" := by rw [hk]; decide
    simp [this]

/-- Witness for C7: `/` pressed with focus on the page body focuses search
with default suppressed, and `/` pressed inside a text input is left
entirely alone. -/
theorem slash_focuses_search_witness :
    keydownDispatch true
        { key := "/", targetIsInput := false, targetIsTextarea := false,
          targetIsSearchInput := false, targetIsSectionHeader := false,
          targetIsNavItem := false } =
      { prevented := true, searchFocused := true, searchBlurred := false, routed := none } ∧
    keydownDispatch true
        { key := "/", targetIsInput := true, targetIsTextarea := false,
          targetIsSearchInput := true, targetIsSectionHeader := false,
          targetIsNavItem := false } = noOutcome := by
  constructor
  · exact (slash_focuses_search _ rfl).1 rfl
  · exact (slash_focuses_search _ rfl).2 (by decide) true

theorem textNodes_append (a b : List DNode) :
    textNodes (a ++ b) = textNodes a ++ textNodes b := by
  induction a using textNodes.induct with
  | case1 => simp [textNodes]
  | case2 s t ih => simp [textNodes, ih]
  | case3 m cs t ihc iht => simp [textNodes, ihc, iht]

theorem textContentL_append (a b : List DNode) :
    textContentL (a ++ b) = textContentL a ++ textContentL b := by
  unfold textContentL
  rw [textNodes_append, List.flatten_append]

theorem textContentL_nil : textContentL [] = [] := by
  simp [textContentL, textNodes]

theorem textContentL_cons_text (s : List Char) (t : List DNode) :
    textContentL (.text s :: t) = s ++ textContentL t := by
  simp [textContentL, textNodes]

theorem textContentL_cons_elem (m : Bool) (cs t : List DNode) :
    textContentL (.elem m cs :: t) = textContentL cs ++ textContentL t := by
  simp [textContentL, textNodes]

theorem isPrefixOfL_take (needle hay : List Char)
    (h : isPrefixOfL needle hay = true) : hay.take needle.length = needle := by
  induction needle generalizing hay with
  | nil => simp
  | cons a as ih =>
    cases hay with
    | nil => simp [isPrefixOfL] at h
    | cons b bs =>
      simp only [isPrefixOfL, Bool.and_eq_true, beq_iff_eq] at h
      obtain ⟨rfl, h2⟩ := h
      simp [List.take, ih bs h2]

theorem idxOfAux_spec (needle hay : List Char) (k j : Nat)
    (h : idxOfAux needle hay k = some j) :
    ∃ d, j = k + d ∧ isPrefixOfL needle (hay.drop d) = true := by
  induction hay generalizing k with
  | nil =>
    unfold idxOfAux at h
    by_cases hp : isPrefixOfL needle [] = true
    · rw [if_pos hp] at h
      exact ⟨0, by simpa using h.symm, by simpa using hp⟩
    · rw [if_neg hp] at h
      exact absurd h (by simp)
  | cons c t ih =>
    unfold idxOfAux at h
    by_cases hp : isPrefixOfL needle (c :: t) = true
    · rw [if_pos hp] at h
      exact ⟨0, by simpa using h.symm, by simpa using hp⟩
    · rw [if_neg hp] at h
      obtain ⟨d, hd, hpre⟩ := ih (k + 1) h
      exact ⟨d + 1, by omega, by simpa using hpre⟩

theorem idxOf_found_pre (hay needle : List Char) (i : Nat)
    (h : idxOf hay needle = some i) :
    isPrefixOfL needle (hay.drop i) = true := by
  obtain ⟨d, hd, hpre⟩ := idxOfAux_spec needle hay 0 i h
  have : i = d := by omega
  rw [this]
  exact hpre

theorem idxOf_extract (hay needle : List Char) (i : Nat)
    (h : idxOf hay needle = some i) :
    (hay.drop i).take needle.length = needle :=
  isPrefixOfL_take _ _ (idxOf_found_pre hay needle i h)

theorem jsLower_append (a b : List Char) : jsLower (a ++ b) = jsLower a ++ jsLower b := by
  unfold jsLower
  exact List.map_append Char.toLower a b

theorem jsLower_take (s : List Char) (n : Nat) : jsLower (s.take n) = (jsLower s).take n := by
  unfold jsLower
  exact List.map_take Char.toLower s n

theorem jsLower_drop (s : List Char) (n : Nat) : jsLower (s.drop n) = (jsLower s).drop n := by
  unfold jsLower
  exact List.map_drop Char.toLower s n

theorem jsLower_length (s : List Char) : (jsLower s).length = s.length := by
  unfold jsLower
  exact List.length_map s Char.toLower

/-- The three splice fragments reassemble the original text node. -/
theorem take_take_drop_eq (s : List Char) (i len : Nat) :
    s.take i ++ ((s.drop i).take len ++ (s.drop i).drop len) = s := by
  rw [List.take_append_drop, List.take_append_drop]

theorem textContentL_optText (x : List Char) :
    textContentL (if x.isEmpty then [] else [.text x]) = x := by
  by_cases h : x.isEmpty
  · rw [if_pos h]
    rw [List.isEmpty_iff.mp h, textContentL_nil]
  · rw [if_neg h]
    simp [textContentL, textNodes]

theorem textContentL_splice (q s : List Char) :
    textContentL (splice q s) = s := by
  unfold splice
  cases hidx : idxOf (jsLower s) q with
  | none => simp [textContentL, textNodes]
  | some i =>
    simp only
    rw [textContentL_append, textContentL_append, textContentL_optText]
    rw [textContentL_cons_elem, textContentL_nil, List.append_nil,
      textContentL_cons_text, textContentL_nil, List.append_nil, textContentL_optText]
    rw [show s.drop (i + q.length) = (s.drop i).drop q.length by
      rw [List.drop_drop, Nat.add_comm]]
    exact take_take_drop_eq s i q.length

theorem textContentL_highlightL (q : List Char) (ns : List DNode) :
    textContentL (highlightL q ns) = textContentL ns := by
  induction ns using highlightL.induct q with
  | case1 => simp [highlightL]
  | case2 s t ih =>
    simp only [highlightL]
    rw [textContentL_append, textContentL_splice, textContentL_cons_text, ih]
  | case3 m cs t ihc iht =>
    simp only [highlightL]
    rw [textContentL_cons_elem, textContentL_cons_elem, ihc, iht]

theorem textContentL_normalizeL (ns : List DNode) :
    textContentL (normalizeL ns) = textContentL ns := by
  induction ns using normalizeL.induct with
  | case1 => simp [normalizeL]
  | case2 s t hse ih =>
    simp only [normalizeL, hse, ite_true, reduceIte]
    rw [ih, textContentL_cons_text, List.isEmpty_iff.mp hse]
    simp
  | case3 s t hse s2 t2 hmatch ih =>
    simp only [normalizeL, hse]
    rw [if_neg (by simp [hse]), hmatch]
    have := ih
    rw [hmatch] at this
    rw [textContentL_cons_text, textContentL_cons_text, ← this, textContentL_cons_text]
    simp
  | case4 s t hse hmatch ih =>
    simp only [normalizeL, hse]
    rw [if_neg (by simp [hse])]
    rw [textContentL_cons_text, textContentL_cons_text, ih]
  | case5 m cs t ihc iht =>
    simp only [normalizeL]
    rw [textContentL_cons_elem, textContentL_cons_elem, ihc, iht]

theorem textContentL_clearEach (ns : List DNode) :
    textContentL (clearEach ns) = textContentL ns := by
  induction ns using clearEach.induct with
  | case1 => simp [clearEach]
  | case2 s t ih =>
    simp only [clearEach]
    rw [textContentL_cons_text, textContentL_cons_text, ih]
  | case3 cs t ih =>
    simp only [clearEach]
    rw [textContentL_cons_text, textContentL_cons_elem, ih]
  | case4 cs t ihc iht =>
    simp only [clearEach]
    rw [textContentL_cons_elem, textContentL_cons_elem, iht]
    congr 1
    split
    · rw [textContentL_normalizeL, ihc]
    · exact ihc

theorem textContentL_clearL (ns : List DNode) :
    textContentL (clearL ns) = textContentL ns := by
  unfold clearL
  split
  · rw [textContentL_normalizeL, textContentL_clearEach]
  · exact textContentL_clearEach ns

theorem normalB_cons_text {s : List Char} {t : List DNode}
    (h : normalB (.text s :: t) = true) :
    s.isEmpty = false ∧ headNotText t = true ∧ normalB t = true := by
  simp only [normalB, Bool.and_eq_true, Bool.not_eq_true'] at h
  exact ⟨h.1.1, h.1.2, h.2⟩

theorem normalB_cons_elem {m : Bool} {cs t : List DNode}
    (h : normalB (.elem m cs :: t) = true) :
    normalB cs = true ∧ normalB t = true := by
  simp only [normalB, Bool.and_eq_true] at h
  exact h

theorem noMarksB_cons_text {s : List Char} {t : List DNode}
    (h : noMarksB (.text s :: t) = true) : noMarksB t = true := by
  simp only [noMarksB] at h
  exact h

theorem noMarksB_cons_elem {m : Bool} {cs t : List DNode}
    (h : noMarksB (.elem m cs :: t) = true) :
    m = false ∧ noMarksB cs = true ∧ noMarksB t = true := by
  simp only [noMarksB, Bool.and_eq_true, Bool.not_eq_true'] at h
  exact ⟨h.1.1, h.1.2, h.2⟩

theorem noMarks_any (ns : List DNode) (h : noMarksB ns = true) :
    ns.any isMarkTop = false := by
  induction ns with
  | nil => rfl
  | cons n t ih =>
    cases n with
    | text s =>
      simp [isMarkTop, ih (noMarksB_cons_text h)]
    | elem m cs =>
      obtain ⟨hm, _, ht⟩ := noMarksB_cons_elem h
      subst hm
      simp [isMarkTop, ih ht]

theorem noMarks_normalizeL (ns : List DNode) (h : noMarksB ns = true) :
    noMarksB (normalizeL ns) = true := by
  induction ns using normalizeL.induct with
  | case1 => simp [normalizeL, noMarksB]
  | case2 s t hse ih =>
    simp only [normalizeL, hse, ite_true, reduceIte]
    exact ih (noMarksB_cons_text h)
  | case3 s t hse s2 t2 hmatch ih =>
    simp only [normalizeL, hse]
    rw [if_neg (by simp [hse]), hmatch]
    have := ih (noMarksB_cons_text h)
    rw [hmatch] at this
    simpa [noMarksB] using this
  | case4 s t hse hmatch ih =>
    simp only [normalizeL, hse]
    rw [if_neg (by simp [hse])]
    simpa [noMarksB] using ih (noMarksB_cons_text h)
  | case5 m cs t ihc iht =>
    obtain ⟨hm, hc, ht⟩ := noMarksB_cons_elem h
    simp only [normalizeL]
    simp [noMarksB, hm, ihc hc, iht ht]

theorem noMarks_clearEach (ns : List DNode) : noMarksB (clearEach ns) = true := by
  induction ns using clearEach.induct with
  | case1 => simp [clearEach, noMarksB]
  | case2 s t ih => simp [clearEach, noMarksB, ih]
  | case3 cs t ih => simp [clearEach, noMarksB, ih]
  | case4 cs t ihc iht =>
    simp only [clearEach]
    by_cases hc : cs.any isMarkTop
    · rw [if_pos hc]
      simp [noMarksB, noMarks_normalizeL _ ihc, iht]
    · rw [if_neg hc]
      simp [noMarksB, ihc, iht]

theorem noMarks_clearL (ns : List DNode) : noMarksB (clearL ns) = true := by
  unfold clearL
  split
  · exact noMarks_normalizeL _ (noMarks_clearEach ns)
  · exact noMarks_clearEach ns

theorem normalizeL_id (ns : List DNode) (h : normalB ns = true) :
    normalizeL ns = ns := by
  induction ns using normalizeL.induct with
  | case1 => simp [normalizeL]
  | case2 s t hse ih =>
    obtain ⟨he, _, _⟩ := normalB_cons_text h
    rw [hse] at he
    simp at he
  | case3 s t hse s2 t2 hmatch ih =>
    obtain ⟨_, hhead, hnt⟩ := normalB_cons_text h
    rw [ih hnt] at hmatch
    rw [hmatch] at hhead
    simp [headNotText] at hhead
  | case4 s t hse hmatch ih =>
    obtain ⟨_, _, hnt⟩ := normalB_cons_text h
    simp only [normalizeL, hse]
    rw [if_neg (by simp [hse])]
    rw [ih hnt]
  | case5 m cs t ihc iht =>
    obtain ⟨hc, ht⟩ := normalB_cons_elem h
    simp only [normalizeL]
    rw [ihc hc, iht ht]

theorem clearEach_id (ns : List DNode) (hnm : noMarksB ns = true)
    (hn : normalB ns = true) : clearEach ns = ns := by
  induction ns using clearEach.induct with
  | case1 => simp [clearEach]
  | case2 s t ih =>
    obtain ⟨_, _, htn⟩ := normalB_cons_text hn
    simp [clearEach, ih (noMarksB_cons_text hnm) htn]
  | case3 cs t ih =>
    obtain ⟨hm, _, _⟩ := noMarksB_cons_elem hnm
    simp at hm
  | case4 cs t ihc iht =>
    obtain ⟨_, hc, ht⟩ := noMarksB_cons_elem hnm
    obtain ⟨hcn, htn⟩ := normalB_cons_elem hn
    simp only [clearEach]
    rw [noMarks_any cs hc]
    simp only [Bool.false_eq_true, if_neg, ite_false, reduceIte]
    rw [ihc hc hcn, iht ht htn]

theorem clearL_id (ns : List DNode) (hnm : noMarksB ns = true)
    (hn : normalB ns = true) : clearL ns = ns := by
  unfold clearL
  rw [noMarks_any ns hnm]
  simp only [Bool.false_eq_true, if_neg, ite_false, reduceIte]
  exact clearEach_id ns hnm hn

theorem clearEach_append (xs ys : List DNode) :
    clearEach (xs ++ ys) = clearEach xs ++ clearEach ys := by
  induction xs using clearEach.induct with
  | case1 => simp [clearEach]
  | case2 s t ih => simp [clearEach, ih]
  | case3 cs t ih => simp [clearEach, ih]
  | case4 cs t ihc iht => simp [clearEach, iht]

theorem clearEach_optText (x : List Char) :
    clearEach (if x.isEmpty then [] else [.text x]) =
      (if x.isEmpty then [] else [.text x]) := by
  split <;> simp [clearEach]

theorem headNotText_normalizeL (ns : List DNode) (h : headNotText ns = true) :
    headNotText (normalizeL ns) = true := by
  cases ns with
  | nil => simp [normalizeL, headNotText]
  | cons n t =>
    cases n with
    | text s => simp [headNotText] at h
    | elem m cs => simp [normalizeL, headNotText]

theorem headNotText_clear_highlight (q : List Char) (t : List DNode)
    (hh : headNotText t = true) (hm : noMarksB t = true) :
    headNotText (clearEach (highlightL q t)) = true := by
  cases t with
  | nil => simp [highlightL, clearEach, headNotText]
  | cons n t' =>
    cases n with
    | text s => simp [headNotText] at hh
    | elem m cs =>
      obtain ⟨hm0, _, _⟩ := noMarksB_cons_elem hm
      subst hm0
      simp [highlightL, clearEach, headNotText]

theorem normalizeL_cons_text_of (s : List Char) (Z : List DNode)
    (hse : s.isEmpty = false) (hh : headNotText (normalizeL Z) = true) :
    normalizeL (.text s :: Z) = .text s :: normalizeL Z := by
  simp only [normalizeL]
  rw [if_neg (by simp [hse])]
  split
  · rename_i s2 t2 heq
    rw [heq] at hh
    simp [headNotText] at hh
  · rfl

theorem normalizeL_cons_text_merge (s : List Char) (W : List DNode)
    (s2 : List Char) (t2 : List DNode) (hse : s.isEmpty = false)
    (hW : normalizeL W = .text s2 :: t2) :
    normalizeL (.text s :: W) = .text (s ++ s2) :: t2 := by
  simp only [normalizeL]
  rw [if_neg (by simp [hse]), hW]

theorem normalizeL_spliceClr (b m a : List Char) (Z : List DNode)
    (hm : m ≠ []) (hh : headNotText (normalizeL Z) = true) :
    normalizeL ((if b.isEmpty then [] else [.text b]) ++
        ([.text m] ++ ((if a.isEmpty then [] else [.text a]) ++ Z))) =
      .text (b ++ (m ++ a)) :: normalizeL Z := by
  have hme : m.isEmpty = false := by
    cases m with
    | nil => exact absurd rfl hm
    | cons c cs => rfl
  by_cases hb : b.isEmpty <;> by_cases ha : a.isEmpty
  · rw [if_pos hb, if_pos ha]
    rw [List.isEmpty_iff.mp hb, List.isEmpty_iff.mp ha]
    simp only [List.nil_append, List.append_nil]
    exact normalizeL_cons_text_of m Z hme hh
  · rw [if_pos hb, if_neg ha]
    rw [List.isEmpty_iff.mp hb]
    have hae : a.isEmpty = false := by simpa using ha
    have hin1 : normalizeL (.text a :: Z) = .text a :: normalizeL Z :=
      normalizeL_cons_text_of a Z hae hh
    simp only [List.nil_append, List.singleton_append, List.cons_append]
    exact normalizeL_cons_text_merge m _ a (normalizeL Z) hme hin1
  · rw [if_neg hb, if_pos ha]
    rw [List.isEmpty_iff.mp ha]
    have hbe : b.isEmpty = false := by simpa using hb
    have hin1 : normalizeL (.text m :: Z) = .text m :: normalizeL Z :=
      normalizeL_cons_text_of m Z hme hh
    simp only [List.append_nil, List.nil_append, List.cons_append, List.singleton_append]
    exact normalizeL_cons_text_merge b _ m (normalizeL Z) hbe hin1
  · rw [if_neg hb, if_neg ha]
    have hbe : b.isEmpty = false := by simpa using hb
    have hae : a.isEmpty = false := by simpa using ha
    have hin1 : normalizeL (.text a :: Z) = .text a :: normalizeL Z :=
      normalizeL_cons_text_of a Z hae hh
    have hin2 : normalizeL (.text m :: .text a :: Z) = .text (m ++ a) :: normalizeL Z :=
      normalizeL_cons_text_merge m _ a (normalizeL Z) hme hin1
    simp only [List.cons_append, List.singleton_append, List.nil_append]
    exact normalizeL_cons_text_merge b _ (m ++ a) (normalizeL Z) hbe hin2

/-- Core of the search round-trip: on parser-normal, mark-free content,
stripping the marks (with per-parent normalization) undoes highlighting
exactly. -/
theorem clear_highlight_aux (q : List Char) (hq : q ≠ []) (ns : List DNode)
    (hn : normalB ns = true) (hnm : noMarksB ns = true) :
    normalizeL (clearEach (highlightL q ns)) = ns ∧
      ((highlightL q ns).any isMarkTop = false → clearEach (highlightL q ns) = ns) := by
  induction ns using highlightL.induct q with
  | case1 => simp [highlightL, clearEach, normalizeL]
  | case2 s t ih =>
    obtain ⟨hse, hhead, hnt⟩ := normalB_cons_text hn
    have hnmt := noMarksB_cons_text hnm
    obtain ⟨ih1, ih2⟩ := ih hnt hnmt
    cases hidx : idxOf (jsLower s) q with
    | none =>
      have hsp : splice q s = [.text s] := by simp [splice, hidx]
      have hhl : highlightL q (.text s :: t) = .text s :: highlightL q t := by
        simp [highlightL, hsp]
      have hce : clearEach (.text s :: highlightL q t) =
          .text s :: clearEach (highlightL q t) := by simp [clearEach]
      constructor
      · rw [hhl, hce]
        rw [normalizeL_cons_text_of s _ hse (by rw [ih1]; exact hhead), ih1]
      · intro hany
        rw [hhl] at hany ⊢
        rw [hce, ih2 (by simpa [isMarkTop] using hany)]
    | some i =>
      have hqm : jsLower ((s.drop i).take q.length) = q := by
        rw [jsLower_take, jsLower_drop]
        exact idxOf_extract _ _ _ hidx
      have hmne : (s.drop i).take q.length ≠ [] := by
        intro habs
        rw [habs] at hqm
        exact hq hqm.symm
      have hsp : splice q s =
          (if (s.take i).isEmpty then [] else [.text (s.take i)]) ++
            ([.elem true [.text ((s.drop i).take q.length)]] ++
              (if (s.drop (i + q.length)).isEmpty then []
               else [.text (s.drop (i + q.length))])) := by
        simp [splice, hidx]
      have hhl : highlightL q (.text s :: t) = splice q s ++ highlightL q t := by
        simp [highlightL]
      have htc : textContentL [DNode.text ((s.drop i).take q.length)] =
          (s.drop i).take q.length := by
        rw [textContentL_cons_text, textContentL_nil, List.append_nil]
      have hce : clearEach (splice q s ++ highlightL q t) =
          (if (s.take i).isEmpty then [] else [.text (s.take i)]) ++
            ([.text ((s.drop i).take q.length)] ++
              ((if (s.drop (i + q.length)).isEmpty then []
                else [.text (s.drop (i + q.length))]) ++
                clearEach (highlightL q t))) := by
        rw [hsp]
        simp only [List.append_assoc, List.singleton_append]
        rw [clearEach_append, clearEach_optText]
        congr 1
        rw [List.cons_append]
        simp only [clearEach, clearEach_append, clearEach_optText, htc]
      constructor
      · rw [hhl, hce]
        rw [normalizeL_spliceClr _ _ _ _ hmne (by rw [ih1]; exact hhead), ih1]
        congr 2
        rw [show s.drop (i + q.length) = (s.drop i).drop q.length by
          rw [List.drop_drop, Nat.add_comm]]
        exact take_take_drop_eq s i q.length
      · intro hany
        exfalso
        rw [hhl, hsp] at hany
        simp [isMarkTop, List.any_append] at hany
  | case3 m cs t ihc iht =>
    obtain ⟨hm0, hnmc, hnmt⟩ := noMarksB_cons_elem hnm
    subst hm0
    obtain ⟨hnc, hnt⟩ := normalB_cons_elem hn
    obtain ⟨ihc1, ihc2⟩ := ihc hnc hnmc
    obtain ⟨iht1, iht2⟩ := iht hnt hnmt
    have hinner : (if (highlightL q cs).any isMarkTop then
        normalizeL (clearEach (highlightL q cs)) else clearEach (highlightL q cs)) = cs := by
      split
      · exact ihc1
      · rename_i hfalse
        exact ihc2 (by simpa using hfalse)
    have hce : clearEach (highlightL q (.elem false cs :: t)) =
        .elem false cs :: clearEach (highlightL q t) := by
      simp only [highlightL, clearEach]
      rw [hinner]
    constructor
    · rw [hce]
      simp only [normalizeL]
      rw [normalizeL_id cs hnc, iht1]
    · intro hany
      rw [hce, iht2 ?_]
      simp only [highlightL, List.any_cons, isMarkTop] at hany
      simpa using hany

/-- Clearing undoes highlighting on parser-normal mark-free content. -/
theorem clearL_highlightL_id (q : List Char) (ns : List DNode) (hq : q ≠ [])
    (hn : normalB ns = true) (hnm : noMarksB ns = true) :
    clearL (highlightL q ns) = ns := by
  obtain ⟨h1, h2⟩ := clear_highlight_aux q hq ns hn hnm
  unfold clearL
  by_cases h : (highlightL q ns).any isMarkTop
  · rw [if_pos h]
    exact h1
  · rw [if_neg h]
    exact h2 (by simpa using h)

theorem marksTexts_append (xs ys : List DNode) :
    marksTexts (xs ++ ys) = marksTexts xs ++ marksTexts ys := by
  induction xs using marksTexts.induct with
  | case1 => simp [marksTexts]
  | case2 s t ih => simp [marksTexts, ih]
  | case3 cs t ih => simp [marksTexts, ih]
  | case4 cs t ihc iht => simp [marksTexts, iht]

theorem marksTexts_optText (x : List Char) :
    marksTexts (if x.isEmpty then [] else [.text x]) = [] := by
  split <;> simp [marksTexts]

theorem marksTexts_highlightL (q : List Char) (ns : List DNode)
    (hnm : noMarksB ns = true) :
    marksTexts (highlightL q ns) = specMarks q ns := by
  induction ns using highlightL.induct q with
  | case1 => simp [highlightL, marksTexts, specMarks, textNodes]
  | case2 s t ih =>
    have hnmt := noMarksB_cons_text hnm
    have hspec : specMarks q (.text s :: t) =
        (match idxOf (jsLower s) q with
         | none => ([] : List (List Char))
         | some i => [(s.drop i).take q.length]) ++ specMarks q t := by
      unfold specMarks
      rw [show textNodes (.text s :: t) = s :: textNodes t by simp [textNodes]]
      rw [List.filterMap_cons]
      cases hidx : idxOf (jsLower s) q <;> simp [hidx]
    rw [hspec]
    simp only [highlightL]
    rw [marksTexts_append, ih hnmt]
    congr 1
    unfold splice
    cases hidx : idxOf (jsLower s) q with
    | none => simp [marksTexts]
    | some i =>
      simp only
      rw [marksTexts_append, marksTexts_optText]
      simp [marksTexts, marksTexts_optText, textContentL_cons_text, textContentL_nil]
      split <;> simp [marksTexts]
  | case3 m cs t ihc iht =>
    obtain ⟨hm0, hnmc, hnmt⟩ := noMarksB_cons_elem hnm
    subst hm0
    have hspec : specMarks q (.elem false cs :: t) = specMarks q cs ++ specMarks q t := by
      unfold specMarks
      rw [show textNodes (.elem false cs :: t) = textNodes cs ++ textNodes t by
        simp [textNodes]]
      rw [List.filterMap_append]
    rw [hspec]
    simp only [highlightL]
    rw [show marksTexts (DNode.elem false (highlightL q cs) :: highlightL q t) =
      marksTexts (highlightL q cs) ++ marksTexts (highlightL q t) by simp [marksTexts]]
    rw [ihc hnmc, iht hnmt]

theorem specMarks_lower (q : List Char) (ns : List DNode) :
    ∀ mk ∈ specMarks q ns, jsLower mk = q := by
  intro mk hmk
  unfold specMarks at hmk
  rw [List.mem_filterMap] at hmk
  obtain ⟨s, _, hf⟩ := hmk
  cases hidx : idxOf (jsLower s) q with
  | none => rw [hidx] at hf; simp at hf
  | some i =>
    rw [hidx] at hf
    simp only [Option.some.injEq] at hf
    rw [← hf, jsLower_take, jsLower_drop]
    exact idxOf_extract _ _ _ hidx

theorem highlightL_id_of_no_node_match (q : List Char) (ns : List DNode)
    (h : ∀ s ∈ textNodes ns, idxOf (jsLower s) q = none) :
    highlightL q ns = ns := by
  induction ns using highlightL.induct q with
  | case1 => simp [highlightL]
  | case2 s t ih =>
    have hs : idxOf (jsLower s) q = none := by
      apply h
      simp [textNodes]
    have ht : ∀ s2 ∈ textNodes t, idxOf (jsLower s2) q = none := by
      intro s2 hs2
      apply h
      simp [textNodes, hs2]
    simp [highlightL, splice, hs, ih ht]
  | case3 m cs t ihc iht =>
    have hc : ∀ s2 ∈ textNodes cs, idxOf (jsLower s2) q = none := by
      intro s2 hs2
      apply h
      simp [textNodes, hs2]
    have ht : ∀ s2 ∈ textNodes t, idxOf (jsLower s2) q = none := by
      intro s2 hs2
      apply h
      simp [textNodes, hs2]
    simp [highlightL, ihc hc, iht ht]

theorem entryItemsS_clearEntry (e : SEntry) :
    entryItemsS (clearEntry e) = (entryItemsS e).map clearItem := by
  cases e <;> simp [entryItemsS, clearEntry]

theorem entryItemsS_matchEntry (q : List Char) (e : SEntry) :
    entryItemsS (matchEntry q e) = (entryItemsS e).map (matchItem q) := by
  cases e <;> simp [entryItemsS, matchEntry]

theorem flatMap_entry_map (entries : List SEntry) (F : SEntry → SEntry) (g : SItem → SItem)
    (hF : ∀ e, entryItemsS (F e) = (entryItemsS e).map g) :
    (entries.map F).flatMap entryItemsS = (entries.flatMap entryItemsS).map g := by
  induction entries with
  | nil => simp
  | cons e t ih => simp [hF, ih]

theorem onInput_ne (raw : List Char) (sc : Scope)
    (hq : (jsTrim (jsLower raw)).isEmpty = false) :
    onInput raw sc =
      { entries := (sc.entries.map clearEntry).map (matchEntry (jsTrim (jsLower raw))),
        emptyHidden := ((sc.entries.map clearEntry).map
          (matchEntry (jsTrim (jsLower raw)))).any entryHasVisible } := by
  unfold onInput
  simp only [hq, Bool.false_eq_true, if_neg, ite_false, reduceIte]

theorem onInput_empty (raw : List Char) (sc : Scope)
    (hq : (jsTrim (jsLower raw)).isEmpty = true) :
    onInput raw sc =
      { entries := (sc.entries.map clearEntry).map unhideEntry, emptyHidden := true } := by
  unfold onInput
  simp only [hq, ite_true, reduceIte]

theorem scopeItems_onInput_ne (raw : List Char) (sc : Scope)
    (hq : (jsTrim (jsLower raw)).isEmpty = false) :
    scopeItems (onInput raw sc) =
      (scopeItems sc).map (fun it => matchItem (jsTrim (jsLower raw)) (clearItem it)) := by
  rw [onInput_ne raw sc hq]
  unfold scopeItems
  simp only
  rw [flatMap_entry_map _ _ _ (entryItemsS_matchEntry _),
    flatMap_entry_map _ _ _ entryItemsS_clearEntry, List.map_map]
  rfl

theorem any_entryHasVisible (entries : List SEntry) :
    entries.any entryHasVisible = (entries.flatMap entryItemsS).any (fun it => !it.hidden) := by
  induction entries with
  | nil => simp
  | cons e t ih =>
    cases e with
    | static it => simp [entryHasVisible, entryItemsS, ih]
    | sect sh its => simp [entryHasVisible, entryItemsS, ih, List.any_append]

theorem matchItem_clear_hidden (q : List Char) (it : SItem) :
    (matchItem q (clearItem it)).hidden =
      !(containsL (jsLower (textContentL it.content)) q) := by
  unfold matchItem clearItem
  simp only
  rw [textContentL_clearL]
  by_cases h : containsL (jsLower (textContentL it.content)) q
  · rw [if_pos h, h]
    rfl
  · rw [if_neg h]
    simp only [Bool.not_eq_true] at h
    rw [h]
    rfl

theorem matchItem_clear_text (q : List Char) (it : SItem) :
    textContentL (matchItem q (clearItem it)).content = textContentL it.content := by
  unfold matchItem clearItem
  simp only
  split
  · rw [textContentL_highlightL, textContentL_clearL]
  · rw [textContentL_clearL]

theorem matchItem_clear_marks_pos (q : List Char) (it : SItem)
    (h : containsL (jsLower (textContentL it.content)) q = true) :
    marksTexts (matchItem q (clearItem it)).content = specMarks q (clearL it.content) ∧
      ∀ mk ∈ marksTexts (matchItem q (clearItem it)).content, jsLower mk = q := by
  have h' : containsL (jsLower (textContentL (clearL it.content))) q = true := by
    rw [textContentL_clearL]
    exact h
  unfold matchItem clearItem
  simp only [h', ite_true, reduceIte]
  refine ⟨marksTexts_highlightL q _ (noMarks_clearL _), ?_⟩
  rw [marksTexts_highlightL q _ (noMarks_clearL _)]
  exact specMarks_lower q _

theorem matchItem_clear_marks_neg (q : List Char) (it : SItem)
    (h : containsL (jsLower (textContentL it.content)) q = false) :
    noMarksB (matchItem q (clearItem it)).content = true := by
  have h' : containsL (jsLower (textContentL (clearL it.content))) q = false := by
    rw [textContentL_clearL]
    exact h
  unfold matchItem clearItem
  simp only [h', Bool.false_eq_true, if_neg, ite_false, reduceIte]
  exact noMarks_clearL _

/-- C3: for a non-empty (trimmed, lowered) query, one input event processes
every NavItem in the instance's scope in document order: an item is shown
iff its full text content contains the query case-insensitively and hidden
otherwise, its text content is unchanged, a shown item carries exactly one
highlight mark per text node whose lowered text contains the query — each
holding that node's first occurrence, whose lowered text is the query —
while a hidden item carries no marks; every section is hidden iff it has
zero visible NavItems; and the empty-state element is shown iff zero items
in scope matched. -/
theorem search_query_filters (raw : List Char) (sc : Scope)
    (hq : (jsTrim (jsLower raw)).isEmpty = false) :
    (scopeItems (onInput raw sc) =
      (scopeItems sc).map (fun it => matchItem (jsTrim (jsLower raw)) (clearItem it))) ∧
    (∀ it : SItem,
      ((matchItem (jsTrim (jsLower raw)) (clearItem it)).hidden =
        !(containsL (jsLower (textContentL it.content)) (jsTrim (jsLower raw)))) ∧
      (textContentL (matchItem (jsTrim (jsLower raw)) (clearItem it)).content =
        textContentL it.content) ∧
      (containsL (jsLower (textContentL it.content)) (jsTrim (jsLower raw)) = true →
        marksTexts (matchItem (jsTrim (jsLower raw)) (clearItem it)).content =
            specMarks (jsTrim (jsLower raw)) (clearL it.content) ∧
          ∀ mk ∈ marksTexts (matchItem (jsTrim (jsLower raw)) (clearItem it)).content,
            jsLower mk = jsTrim (jsLower raw)) ∧
      (containsL (jsLower (textContentL it.content)) (jsTrim (jsLower raw)) = false →
        noMarksB (matchItem (jsTrim (jsLower raw)) (clearItem it)).content = true)) ∧
    (∀ e ∈ (onInput raw sc).entries, ∀ sh its, e = SEntry.sect sh its →
      sh = its.all (fun it => it.hidden)) ∧
    ((onInput raw sc).emptyHidden =
      (scopeItems (onInput raw sc)).any (fun it => !it.hidden)) := by
  refine ⟨scopeItems_onInput_ne raw sc hq, ?_, ?_, ?_⟩
  · intro it
    exact ⟨matchItem_clear_hidden _ it, matchItem_clear_text _ it,
      fun h => matchItem_clear_marks_pos _ it h,
      fun h => matchItem_clear_marks_neg _ it h⟩
  · intro e he sh its heq
    rw [onInput_ne raw sc hq] at he
    simp only [List.mem_map] at he
    obtain ⟨e1, _, he1⟩ := he
    cases e1 with
    | static it1 =>
      rw [← he1] at heq
      simp [matchEntry] at heq
    | sect sh1 its1 =>
      rw [← he1] at heq
      simp only [matchEntry, SEntry.sect.injEq] at heq
      obtain ⟨hsh, hits⟩ := heq
      rw [← hsh, ← hits]
  · rw [onInput_ne raw sc hq]
    simp only
    rw [any_entryHasVisible]
    rfl

/-- Witness for C3 at the demo scope with query "setup". -/
theorem search_query_filters_witness :
    (scopeItems (onInput "setup".toList scopeDemo) =
      (scopeItems scopeDemo).map
        (fun it => matchItem (jsTrim (jsLower "setup".toList)) (clearItem it))) ∧
    ((onInput "setup".toList scopeDemo).emptyHidden =
      (scopeItems (onInput "setup".toList scopeDemo)).any (fun it => !it.hidden)) := by
  have h := search_query_filters "setup".toList scopeDemo (by decide)
  exact ⟨h.1, h.2.2.2⟩

theorem hn_entry {P : SItem → Prop} (sc0 : Scope)
    (hn : ∀ it ∈ scopeItems sc0, P it) :
    ∀ e ∈ sc0.entries, ∀ it ∈ entryItemsS e, P it := by
  intro e he it hit
  exact hn it (List.mem_flatMap.mpr ⟨e, he, hit⟩)

theorem ne_nil_of_isEmpty_false {α : Type} {l : List α} (h : l.isEmpty = false) :
    l ≠ [] := by
  cases l <;> simp_all

theorem restorableE_refl (es : List SEntry)
    (hn : ∀ e ∈ es, ∀ it ∈ entryItemsS e,
      normalB it.content = true ∧ noMarksB it.content = true) :
    RestorableE es es := by
  induction es with
  | nil => exact List.Forall₂.nil
  | cons e t ih =>
    refine List.Forall₂.cons ?_ (ih (fun e2 he2 => hn e2 (by simp [he2])))
    cases e with
    | static it =>
      have := hn (.static it) (by simp) it (by simp [entryItemsS])
      exact clearL_id it.content this.2 this.1
    | sect sh its =>
      show List.Forall₂ ItemRel its its
      rw [List.forall₂_same]
      intro it hit
      have := hn (.sect sh its) (by simp) it (by simp [entryItemsS, hit])
      exact clearL_id it.content this.2 this.1

theorem clearL_after_match (q : List Char) (x : SItem) (c0 : List DNode)
    (hq : q ≠ []) (hx : clearL x.content = c0)
    (h0n : normalB c0 = true) (h0m : noMarksB c0 = true) :
    clearL (matchItem q (clearItem x)).content = c0 := by
  unfold matchItem clearItem
  simp only
  split
  · show clearL (highlightL q (clearL x.content)) = c0
    rw [hx]
    exact clearL_highlightL_id q c0 hq h0n h0m
  · show clearL (clearL x.content) = c0
    rw [hx]
    exact clearL_id c0 h0m h0n

theorem clearL_after_unhide (x : SItem) (c0 : List DNode)
    (hx : clearL x.content = c0)
    (h0n : normalB c0 = true) (h0m : noMarksB c0 = true) :
    clearL (unhideItem (clearItem x)).content = c0 := by
  unfold unhideItem clearItem
  simp only
  show clearL (clearL x.content) = c0
  rw [hx]
  exact clearL_id c0 h0m h0n

theorem forall₂_items_unhide (its0 its : List SItem)
    (h : List.Forall₂ ItemRel its0 its)
    (h0 : ∀ it ∈ its0, normalB it.content = true ∧ noMarksB it.content = true) :
    List.Forall₂ ItemRel its0 (its.map (fun it => unhideItem (clearItem it))) := by
  induction h with
  | nil => exact List.Forall₂.nil
  | @cons a b ta tb hab hrest ihi =>
    refine List.Forall₂.cons ?_ (ihi (fun it hit => h0 it (by simp [hit])))
    have ha := h0 a (by simp)
    exact clearL_after_unhide b a.content hab ha.1 ha.2

theorem forall₂_items_match (q : List Char) (hq : q ≠ []) (its0 its : List SItem)
    (h : List.Forall₂ ItemRel its0 its)
    (h0 : ∀ it ∈ its0, normalB it.content = true ∧ noMarksB it.content = true) :
    List.Forall₂ ItemRel its0 (its.map (fun it => matchItem q (clearItem it))) := by
  induction h with
  | nil => exact List.Forall₂.nil
  | @cons a b ta tb hab hrest ihi =>
    refine List.Forall₂.cons ?_ (ihi (fun it hit => h0 it (by simp [hit])))
    have ha := h0 a (by simp)
    exact clearL_after_match q b a.content hq hab ha.1 ha.2

theorem restorableE_map_unhide (es0 es : List SEntry)
    (h : RestorableE es0 es)
    (hn : ∀ e ∈ es0, ∀ it ∈ entryItemsS e,
      normalB it.content = true ∧ noMarksB it.content = true) :
    RestorableE es0 (es.map (fun e => unhideEntry (clearEntry e))) := by
  unfold RestorableE at h ⊢
  induction h with
  | nil => exact List.Forall₂.nil
  | @cons e0 e t0 t hpair hrest ih =>
    refine List.Forall₂.cons ?_ (ih (fun e2 he2 => hn e2 (by simp [he2])))
    cases e0 with
    | static it0 =>
      cases e with
      | static it =>
        have h0 := hn (.static it0) (by simp) it0 (by simp [entryItemsS])
        exact clearL_after_unhide it it0.content hpair h0.1 h0.2
      | sect _ _ => exact absurd hpair (by simp [EntryRel])
    | sect sh0 its0 =>
      cases e with
      | static _ => exact absurd hpair (by simp [EntryRel])
      | sect sh its =>
        show List.Forall₂ ItemRel its0 ((its.map clearItem).map unhideItem)
        rw [List.map_map]
        exact forall₂_items_unhide its0 its hpair
          (fun it hit => hn (.sect sh0 its0) (by simp) it (by simp [entryItemsS, hit]))

theorem restorableE_map_match (q : List Char) (hq : q ≠ []) (es0 es : List SEntry)
    (h : RestorableE es0 es)
    (hn : ∀ e ∈ es0, ∀ it ∈ entryItemsS e,
      normalB it.content = true ∧ noMarksB it.content = true) :
    RestorableE es0 (es.map (fun e => matchEntry q (clearEntry e))) := by
  unfold RestorableE at h ⊢
  induction h with
  | nil => exact List.Forall₂.nil
  | @cons e0 e t0 t hpair hrest ih =>
    refine List.Forall₂.cons ?_ (ih (fun e2 he2 => hn e2 (by simp [he2])))
    cases e0 with
    | static it0 =>
      cases e with
      | static it =>
        have h0 := hn (.static it0) (by simp) it0 (by simp [entryItemsS])
        exact clearL_after_match q it it0.content hq hpair h0.1 h0.2
      | sect _ _ => exact absurd hpair (by simp [EntryRel])
    | sect sh0 its0 =>
      cases e with
      | static _ => exact absurd hpair (by simp [EntryRel])
      | sect sh its =>
        show List.Forall₂ ItemRel its0 ((its.map clearItem).map (matchItem q))
        rw [List.map_map]
        exact forall₂_items_match q hq its0 its hpair
          (fun it hit => hn (.sect sh0 its0) (by simp) it (by simp [entryItemsS, hit]))

theorem restorable_onInput (es0 : List SEntry) (sc : Scope) (r : List Char)
    (hn : ∀ e ∈ es0, ∀ it ∈ entryItemsS e,
      normalB it.content = true ∧ noMarksB it.content = true)
    (h : RestorableE es0 sc.entries) :
    RestorableE es0 (onInput r sc).entries := by
  by_cases hval : (jsTrim (jsLower r)).isEmpty
  · rw [onInput_empty r sc hval]
    simp only
    rw [List.map_map]
    exact restorableE_map_unhide es0 sc.entries h hn
  · have hval' : (jsTrim (jsLower r)).isEmpty = false := by simpa using hval
    have hqne : jsTrim (jsLower r) ≠ [] := ne_nil_of_isEmpty_false hval'
    rw [onInput_ne r sc hval']
    simp only
    rw [List.map_map]
    exact restorableE_map_match _ hqne es0 sc.entries h hn

theorem restorable_foldl (es0 : List SEntry) (raws : List (List Char)) (sc : Scope)
    (hn : ∀ e ∈ es0, ∀ it ∈ entryItemsS e,
      normalB it.content = true ∧ noMarksB it.content = true)
    (h : RestorableE es0 sc.entries) :
    RestorableE es0 ((raws.foldl (fun s r => onInput r s) sc).entries) := by
  induction raws generalizing sc with
  | nil => exact h
  | cons r rs ih =>
    exact ih (onInput r sc) (restorable_onInput es0 sc r hn h)

theorem entryItemsS_restoreEntry (e : SEntry) :
    entryItemsS (restoreEntry e) = (entryItemsS e).map restoreItem := by
  cases e <;> simp [entryItemsS, restoreEntry]

theorem items_restored_eq (its0 its : List SItem)
    (h : List.Forall₂ ItemRel its0 its) :
    its.map (fun it => unhideItem (clearItem it)) = its0.map restoreItem := by
  induction h with
  | nil => rfl
  | @cons a b ta tb hab hrest ih =>
    simp only [List.map_cons, ih]
    congr 1
    unfold unhideItem clearItem restoreItem
    simp only
    rw [hab]

theorem restored_entries_eq (es0 es : List SEntry) (h : RestorableE es0 es) :
    es.map (fun e => unhideEntry (clearEntry e)) = es0.map restoreEntry := by
  induction h with
  | nil => rfl
  | @cons e0 e t0 t hpair hrest ih =>
    simp only [List.map_cons, ih]
    congr 1
    cases e0 with
    | static it0 =>
      cases e with
      | static it =>
        show SEntry.static (unhideItem (clearItem it)) = .static (restoreItem it0)
        unfold unhideItem clearItem restoreItem
        simp only [SEntry.static.injEq]
        rw [show clearL it.content = it0.content from hpair]
      | sect _ _ => exact absurd hpair (by simp [EntryRel])
    | sect sh0 its0 =>
      cases e with
      | static _ => exact absurd hpair (by simp [EntryRel])
      | sect sh its =>
        show SEntry.sect false ((its.map clearItem).map unhideItem)
            = .sect false (its0.map restoreItem)
        rw [List.map_map]
        simp only [SEntry.sect.injEq, true_and]
        exact items_restored_eq its0 its hpair

/-- C4: entering the empty query after any prior sequence of queries
restores the scope: every NavItem and Section is unhidden, every item's
content is the pristine (parser-normal, mark-free) content it started
with, the empty-state element is hidden, and zero highlight markers remain
in the modelled document. -/
theorem search_empty_roundtrip (sc0 : Scope) (raws : List (List Char)) (rawE : List Char)
    (hE : (jsTrim (jsLower rawE)).isEmpty = true)
    (hn : ∀ it ∈ scopeItems sc0, normalB it.content = true ∧ noMarksB it.content = true) :
    (onInput rawE (raws.foldl (fun s r => onInput r s) sc0)).entries =
        sc0.entries.map restoreEntry ∧
      (onInput rawE (raws.foldl (fun s r => onInput r s) sc0)).emptyHidden = true ∧
      ∀ it ∈ scopeItems (onInput rawE (raws.foldl (fun s r => onInput r s) sc0)),
        it.hidden = false ∧ noMarksB it.content = true := by
  have hrest := restorable_foldl sc0.entries raws sc0 (hn_entry sc0 hn)
    (restorableE_refl sc0.entries (hn_entry sc0 hn))
  have hent : (onInput rawE (raws.foldl (fun s r => onInput r s) sc0)).entries =
      sc0.entries.map restoreEntry := by
    rw [onInput_empty rawE _ hE]
    simp only
    rw [List.map_map]
    exact restored_entries_eq _ _ hrest
  refine ⟨hent, by rw [onInput_empty rawE _ hE], ?_⟩
  intro it hit
  unfold scopeItems at hit
  rw [hent] at hit
  rw [flatMap_entry_map _ _ _ entryItemsS_restoreEntry] at hit
  rw [List.mem_map] at hit
  obtain ⟨it0, hit0, rfl⟩ := hit
  have h0 := hn it0 hit0
  exact ⟨rfl, h0.2⟩

theorem matchItem_clear_congr (q : List Char) (x y : SItem)
    (h : clearL x.content = clearL y.content) :
    matchItem q (clearItem x) = matchItem q (clearItem y) := by
  unfold matchItem clearItem
  simp only [h]

theorem items_match_idem (q : List Char) (hq : q ≠ []) (its0 its : List SItem)
    (h : List.Forall₂ ItemRel its0 its)
    (h0 : ∀ it ∈ its0, normalB it.content = true ∧ noMarksB it.content = true) :
    (its.map (fun it => matchItem q (clearItem it))).map
        (fun it => matchItem q (clearItem it)) =
      its.map (fun it => matchItem q (clearItem it)) := by
  induction h with
  | nil => rfl
  | @cons a b ta tb hab hrest ih =>
    simp only [List.map_cons, ih (fun it hit => h0 it (by simp [hit]))]
    congr 1
    have ha := h0 a (by simp)
    apply matchItem_clear_congr
    rw [clearL_after_match q b a.content hq hab ha.1 ha.2, hab]

theorem entries_match_idem (q : List Char) (hq : q ≠ []) (es0 es : List SEntry)
    (h : RestorableE es0 es)
    (hn : ∀ e ∈ es0, ∀ it ∈ entryItemsS e,
      normalB it.content = true ∧ noMarksB it.content = true) :
    (es.map (fun e => matchEntry q (clearEntry e))).map
        (fun e => matchEntry q (clearEntry e)) =
      es.map (fun e => matchEntry q (clearEntry e)) := by
  induction h with
  | nil => rfl
  | @cons e0 e t0 t hpair hrest ih =>
    simp only [List.map_cons, ih (fun e2 he2 => hn e2 (by simp [he2]))]
    congr 1
    cases e0 with
    | static it0 =>
      cases e with
      | static it =>
        show SEntry.static (matchItem q (clearItem (matchItem q (clearItem it))))
            = .static (matchItem q (clearItem it))
        have h0 := hn (.static it0) (by simp) it0 (by simp [entryItemsS])
        congr 1
        apply matchItem_clear_congr
        rw [clearL_after_match q it it0.content hq hpair h0.1 h0.2, hpair]
      | sect _ _ => exact absurd hpair (by simp [EntryRel])
    | sect sh0 its0 =>
      cases e with
      | static _ => exact absurd hpair (by simp [EntryRel])
      | sect sh its =>
        have h0 : ∀ it ∈ its0, normalB it.content = true ∧ noMarksB it.content = true :=
          fun it hit => hn (.sect sh0 its0) (by simp) it (by simp [entryItemsS, hit])
        show matchEntry q (clearEntry (.sect ((its.map clearItem).map (matchItem q)
              |>.all (fun it => it.hidden)) ((its.map clearItem).map (matchItem q))))
            = .sect ((its.map clearItem).map (matchItem q) |>.all (fun it => it.hidden))
              ((its.map clearItem).map (matchItem q))
        unfold matchEntry clearEntry
        simp only [List.map_map, SEntry.sect.injEq]
        have hkey := items_match_idem q hq its0 its hpair h0
        simp only [List.map_map, Function.comp_def] at hkey ⊢
        exact ⟨by rw [hkey], hkey⟩

/-- C5: entering the same non-empty query twice in succession leaves
exactly the state of entering it once — hidden/shown flags of every item,
every section's hidden flag, the highlight structure and the empty-state
visibility all included. -/
theorem search_same_query_idempotent (sc0 : Scope) (raws : List (List Char))
    (raw : List Char)
    (hq : (jsTrim (jsLower raw)).isEmpty = false)
    (hn : ∀ it ∈ scopeItems sc0, normalB it.content = true ∧ noMarksB it.content = true) :
    onInput raw (onInput raw (raws.foldl (fun s r => onInput r s) sc0)) =
      onInput raw (raws.foldl (fun s r => onInput r s) sc0) := by
  have hne : jsTrim (jsLower raw) ≠ [] := ne_nil_of_isEmpty_false hq
  have hrest := restorable_foldl sc0.entries raws sc0 (hn_entry sc0 hn)
    (restorableE_refl sc0.entries (hn_entry sc0 hn))
  have key := entries_match_idem (jsTrim (jsLower raw)) hne sc0.entries
    (raws.foldl (fun s r => onInput r s) sc0).entries hrest (hn_entry sc0 hn)
  rw [onInput_ne raw _ hq, onInput_ne raw _ hq]
  simp only [List.map_map, Function.comp_def] at key ⊢
  rw [key]

/-- Witness for C4: searching "setup" then clearing the field restores the
demo scope exactly. -/
theorem search_empty_roundtrip_witness :
    (onInput "".toList ((["setup".toList] : List (List Char)).foldl
          (fun s r => onInput r s) scopeDemo)).entries =
        scopeDemo.entries.map restoreEntry ∧
      (onInput "".toList ((["setup".toList] : List (List Char)).foldl
          (fun s r => onInput r s) scopeDemo)).emptyHidden = true := by
  have hn : ∀ it ∈ scopeItems scopeDemo,
      normalB it.content = true ∧ noMarksB it.content = true := by
    have hsc : scopeItems scopeDemo = [itemIntro, itemSetup, itemAdv] := rfl
    rw [hsc]
    intro it hit
    rcases List.mem_cons.mp hit with rfl | hit2
    · exact ⟨by simp [itemIntro, normalB, headNotText], by simp [itemIntro, noMarksB]⟩
    rcases List.mem_cons.mp hit2 with rfl | hit3
    · exact ⟨by simp [itemSetup, normalB, headNotText], by simp [itemSetup, noMarksB]⟩
    rcases List.mem_cons.mp hit3 with rfl | hit4
    · exact ⟨by simp [itemAdv, normalB, headNotText], by simp [itemAdv, noMarksB]⟩
    · exact absurd hit4 (by simp)
  have h := search_empty_roundtrip scopeDemo ["setup".toList] "".toList (by decide) hn
  exact ⟨h.1, h.2.1⟩

/-- Witness for C5: entering "setup" twice over the demo scope equals
entering it once. -/
theorem search_same_query_idempotent_witness :
    onInput "setup".toList (onInput "setup".toList
        (([] : List (List Char)).foldl (fun s r => onInput r s) scopeDemo)) =
      onInput "setup".toList
        (([] : List (List Char)).foldl (fun s r => onInput r s) scopeDemo) := by
  have hn : ∀ it ∈ scopeItems scopeDemo,
      normalB it.content = true ∧ noMarksB it.content = true := by
    have hsc : scopeItems scopeDemo = [itemIntro, itemSetup, itemAdv] := rfl
    rw [hsc]
    intro it hit
    rcases List.mem_cons.mp hit with rfl | hit2
    · exact ⟨by simp [itemIntro, normalB, headNotText], by simp [itemIntro, noMarksB]⟩
    rcases List.mem_cons.mp hit2 with rfl | hit3
    · exact ⟨by simp [itemSetup, normalB, headNotText], by simp [itemSetup, noMarksB]⟩
    rcases List.mem_cons.mp hit3 with rfl | hit4
    · exact ⟨by simp [itemAdv, normalB, headNotText], by simp [itemAdv, noMarksB]⟩
    · exact absurd hit4 (by simp)
  exact search_same_query_idempotent scopeDemo [] "setup".toList (by decide) hn

/-- C10 (implicit): a NavItem whose concatenated text contains the query
while none of its individual text nodes does (the match spans a text-node
boundary) is shown by a non-empty query, but receives zero highlight
markers — its content is left untouched. -/
theorem cross_node_match_no_marks (raw : List Char) (sc : Scope)
    (hq : (jsTrim (jsLower raw)).isEmpty = false)
    (j : Nat) (hj : j < (scopeItems sc).length)
    (hnorm : normalB ((scopeItems sc).get ⟨j, hj⟩).content = true)
    (hnm : noMarksB ((scopeItems sc).get ⟨j, hj⟩).content = true)
    (hfull : containsL (jsLower (textContentL ((scopeItems sc).get ⟨j, hj⟩).content))
        (jsTrim (jsLower raw)) = true)
    (hnode : ∀ s ∈ textNodes ((scopeItems sc).get ⟨j, hj⟩).content,
        containsL (jsLower s) (jsTrim (jsLower raw)) = false) :
    ∃ hj2 : j < (scopeItems (onInput raw sc)).length,
      ((scopeItems (onInput raw sc)).get ⟨j, hj2⟩).hidden = false ∧
        noMarksB ((scopeItems (onInput raw sc)).get ⟨j, hj2⟩).content = true ∧
        ((scopeItems (onInput raw sc)).get ⟨j, hj2⟩).content =
          ((scopeItems sc).get ⟨j, hj⟩).content := by
  have hmap := scopeItems_onInput_ne raw sc hq
  have hlen : (scopeItems (onInput raw sc)).length = (scopeItems sc).length := by
    rw [hmap]
    exact List.length_map _ _
  refine ⟨by omega, ?_⟩
  have hcl : clearL ((scopeItems sc).get ⟨j, hj⟩).content =
      ((scopeItems sc).get ⟨j, hj⟩).content := clearL_id _ hnm hnorm
  have hnone : ∀ s ∈ textNodes ((scopeItems sc).get ⟨j, hj⟩).content,
      idxOf (jsLower s) (jsTrim (jsLower raw)) = none := by
    intro s hs
    have hc := hnode s hs
    unfold containsL at hc
    exact Option.not_isSome_iff_eq_none.mp (by simp [hc])
  have hresult : matchItem (jsTrim (jsLower raw)) (clearItem ((scopeItems sc).get ⟨j, hj⟩)) =
      { content := ((scopeItems sc).get ⟨j, hj⟩).content, hidden := false } := by
    unfold matchItem clearItem
    simp only [hcl]
    rw [if_pos hfull]
    simp only [SItem.mk.injEq, and_true]
    exact highlightL_id_of_no_node_match _ _ hnone
  have hget : (scopeItems (onInput raw sc)).get ⟨j, by omega⟩ =
      matchItem (jsTrim (jsLower raw)) (clearItem ((scopeItems sc).get ⟨j, hj⟩)) := by
    have hb : j < (scopeItems (onInput raw sc)).length := by omega
    have h1 : (scopeItems (onInput raw sc)).get ⟨j, hb⟩ =
        (scopeItems (onInput raw sc))[j] := rfl
    rw [h1, List.getElem_of_eq hmap hb, List.getElem_map]
    rfl
  rw [hget, hresult]
  exact ⟨rfl, hnm, rfl⟩

/-- Witness for C10: query "dva" matches "Advanced" only across the
"Ad"/"vanced" node boundary — the item is shown and no mark is created. -/
theorem cross_node_match_no_marks_witness :
    ∃ hj2 : 0 < (scopeItems (onInput "dva".toList scopeCross)).length,
      ((scopeItems (onInput "dva".toList scopeCross)).get ⟨0, hj2⟩).hidden = false ∧
        noMarksB ((scopeItems (onInput "dva".toList scopeCross)).get ⟨0, hj2⟩).content = true ∧
        ((scopeItems (onInput "dva".toList scopeCross)).get ⟨0, hj2⟩).content =
          ((scopeItems scopeCross).get ⟨0, by decide⟩).content := by
  have h := cross_node_match_no_marks "dva".toList scopeCross (by decide) 0 (by decide)
    (by show normalB itemCross.content = true
        simp [itemCross, normalB, headNotText])
    (by show noMarksB itemCross.content = true
        simp [itemCross, noMarksB])
    (by show containsL (jsLower (textContentL itemCross.content)) (jsTrim (jsLower "dva".toList)) = true
        rw [show textContentL itemCross.content = "Advanced".toList by
          simp [itemCross, textContentL, textNodes]]
        decide)
    (by show ∀ s ∈ textNodes itemCross.content, containsL (jsLower s) (jsTrim (jsLower "dva".toList)) = false
        rw [show textNodes itemCross.content = ["Ad".toList, "vanced".toList] by
          simp [itemCross, textNodes]]
        decide)
  exact h

/-- C8: during a drag, a mousemove mutates the sidebar width only when the
candidate width (start width plus pointer delta) lies within the parsed
[min, max] bounds — in which case the applied width is the candidate,
within the bounds —; when either bound is unparsable (`NaN`), or the
candidate is out of bounds, no style mutation occurs at all. -/
theorem sidebarWidth_after_apply (env : ResizeEnv) (a : Bool) (x y w : Int)
    (g : Option Int) :
    (if env.innerWidth ≥ 1024 then
        updateGridColumns env ⟨a, x, y, w, g⟩ w
      else (⟨a, x, y, w, g⟩ : ResizeState)).sidebarWidth = w := by
  unfold updateGridColumns
  split
  · split <;> rfl
  · rfl

theorem resize_clamp (env : ResizeEnv) (st : ResizeState) (clientX : Int)
    (hres : st.isResizing = true) :
    ((jsParseInt env.minVar = none ∨ jsParseInt env.maxVar = none) →
      onMouseMove env st clientX = st) ∧
    (∀ mn mx : Int, jsParseInt env.minVar = some mn → jsParseInt env.maxVar = some mx →
      ((mn ≤ st.startWidth + (clientX - st.startX) ∧
          st.startWidth + (clientX - st.startX) ≤ mx) →
        (onMouseMove env st clientX).sidebarWidth =
          st.startWidth + (clientX - st.startX)) ∧
      (¬(mn ≤ st.startWidth + (clientX - st.startX) ∧
          st.startWidth + (clientX - st.startX) ≤ mx) →
        onMouseMove env st clientX = st)) ∧
    ((onMouseMove env st clientX).sidebarWidth ≠ st.sidebarWidth →
      ∃ mn mx : Int, jsParseInt env.minVar = some mn ∧ jsParseInt env.maxVar = some mx ∧
        mn ≤ (onMouseMove env st clientX).sidebarWidth ∧
        (onMouseMove env st clientX).sidebarWidth ≤ mx) := by
  unfold onMouseMove
  rw [hres]
  simp only [Bool.not_true, Bool.false_eq_true, if_neg, ite_false, reduceIte]
  refine ⟨?_, ?_, ?_⟩
  · intro hnan
    rcases hnan with hmn | hmx
    · rw [show geOpt (st.startWidth + (clientX - st.startX)) (jsParseInt env.minVar) = false by
        rw [hmn]; rfl]
      simp
    · rw [show leOpt (st.startWidth + (clientX - st.startX)) (jsParseInt env.maxVar) = false by
        rw [hmx]; rfl]
      simp
  · intro mn mx hmn hmx
    rw [hmn, hmx]
    constructor
    · intro hin
      rw [show geOpt (st.startWidth + (clientX - st.startX)) (some mn) = true by
        simp [geOpt, hin.1]]
      rw [show leOpt (st.startWidth + (clientX - st.startX)) (some mx) = true by
        simp [leOpt, hin.2]]
      simp only [Bool.and_self, ite_true, reduceIte]
      exact sidebarWidth_after_apply env _ _ _ _ _
    · intro hout
      rcases not_and_or.mp hout with hlt | hgt
      · rw [show geOpt (st.startWidth + (clientX - st.startX)) (some mn) = false by
          simp [geOpt]; omega]
        simp
      · rw [show leOpt (st.startWidth + (clientX - st.startX)) (some mx) = false by
          simp [leOpt]; omega]
        simp
  · intro hchanged
    by_cases hg : geOpt (st.startWidth + (clientX - st.startX)) (jsParseInt env.minVar)
        && leOpt (st.startWidth + (clientX - st.startX)) (jsParseInt env.maxVar)
    · rw [if_pos hg] at hchanged ⊢
      rw [Bool.and_eq_true] at hg
      obtain ⟨hg1, hg2⟩ := hg
      cases hmn : jsParseInt env.minVar with
      | none => rw [hmn] at hg1; simp [geOpt] at hg1
      | some mn =>
        cases hmx : jsParseInt env.maxVar with
        | none => rw [hmx] at hg2; simp [leOpt] at hg2
        | some mx =>
          rw [hmn] at hg1
          rw [hmx] at hg2
          simp only [geOpt, decide_eq_true_eq] at hg1
          simp only [leOpt, decide_eq_true_eq] at hg2
          refine ⟨mn, mx, rfl, rfl, ?_, ?_⟩
          · rw [sidebarWidth_after_apply]
            exact hg1
          · rw [sidebarWidth_after_apply]
            exact hg2
    · rw [if_neg hg] at hchanged
      exact absurd rfl hchanged

/-- Witness for C8 at concrete values: bounds "200px"/"480px", start width
300, pointer moved 100px right — the width becomes 400, inside the
bounds; and an unparsable bound leaves the state untouched. -/
theorem resize_clamp_witness :
    (onMouseMove { minVar := "200px", maxVar := "480px", innerWidth := 1280 }
        { isResizing := true, startX := 0, startWidth := 300,
          sidebarWidth := 300, gridColumns := some 300 } 100).sidebarWidth = 400 ∧
    onMouseMove { minVar := "var(--x)", maxVar := "480px", innerWidth := 1280 }
        { isResizing := true, startX := 0, startWidth := 300,
          sidebarWidth := 300, gridColumns := some 300 } 100 =
      { isResizing := true, startX := 0, startWidth := 300,
        sidebarWidth := 300, gridColumns := some 300 } := by
  constructor
  · have h := (resize_clamp { minVar := "200px", maxVar := "480px", innerWidth := 1280 }
      { isResizing := true, startX := 0, startWidth := 300,
        sidebarWidth := 300, gridColumns := some 300 } 100 rfl).2.1 200 480
      (by decide) (by decide)
    exact h.1 (by decide)
  · exact (resize_clamp { minVar := "var(--x)", maxVar := "480px", innerWidth := 1280 }
      { isResizing := true, startX := 0, startWidth := 300,
        sidebarWidth := 300, gridColumns := some 300 } 100 rfl).1
      (Or.inl (by decide))

/-- C9: each init operation is a silent no-op when a required DOM element
is absent — `initKeyboardNavigation` without its nav, `initSearch` without
its search input or container, `initResizable` without any of container,
handle, sidebar or grid container: no state is produced, no listener
installed, nothing mutated, and (being total functions) nothing thrown. -/
theorem init_missing_element_noop :
    (initKeyboardNavigation none = { state := none, listenerInstalled := false }) ∧
    (∀ (sip : Bool) (c : Option Scope) (np : Bool), sip = false ∨ c = none →
      initSearch sip c np = searchInitNoop) ∧
    (∀ d : ResizableDom,
      (d.containerPresent && d.handlePresent && d.sidebarPresent && d.gridPresent) = false →
      initResizable d = resizableNoop d) := by
  refine ⟨rfl, ?_, ?_⟩
  · intro sip c np h
    unfold initSearch
    rcases h with rfl | rfl
    · rfl
    · rw [if_pos (by simp)]
  · intro d h
    unfold initResizable
    by_cases hg : d.isInitialized && d.containerPresent
    · rw [if_pos hg]
    · rw [if_neg hg, if_pos (by simp [h])]

/-- Witness for C9: a page with none of the expected elements leaves every
init a no-op. -/
theorem init_missing_element_noop_witness :
    initKeyboardNavigation none = { state := none, listenerInstalled := false } ∧
    initSearch false none false = searchInitNoop ∧
    initResizable
        { containerPresent := false, handlePresent := false, sidebarPresent := false,
          gridPresent := false, isInitialized := false, storedWidth := none,
          innerWidth := 1280, minVar := "200px", maxVar := "480px" } =
      resizableNoop
        { containerPresent := false, handlePresent := false, sidebarPresent := false,
          gridPresent := false, isInitialized := false, storedWidth := none,
          innerWidth := 1280, minVar := "200px", maxVar := "480px" } := by
  obtain ⟨h1, h2, h3⟩ := init_missing_element_noop
  exact ⟨h1, h2 false none false (Or.inl rfl), h3 _ (by decide)⟩

end Sidebar
